import Mathlib

/-!
# GopherScript: a shallow embedding of the transpilation pipeline

Go strings are modelled as lists of Unicode code points (`Str`), errors as
their message text, and the effects of the pipeline (remote generation,
directory creation, file writes, toolchain runs) as an explicit event trace.
Standard-library functions used by the repository (`strings`, `path/filepath`,
`regexp`) are modelled from their documented Unix behaviour.
-/

namespace GopherScript

/-- A Go string, as the sequence of its code points. -/
abbrev Str := List Char

/-! ## Package `strings` -/

namespace strings

/-- Go `unicode.IsSpace`: the Latin-1 spaces and the White_Space code points. -/
def isSpace (c : Char) : Bool :=
  let n := c.toNat
  n == 9 || n == 10 || n == 11 || n == 12 || n == 13 || n == 32 ||
  n == 0x85 || n == 0xA0 || n == 0x1680 || (0x2000 ≤ n && n ≤ 0x200A) ||
  n == 0x2028 || n == 0x2029 || n == 0x202F || n == 0x205F || n == 0x3000

/-- Go `strings.TrimSpace`: leading, then trailing white space is removed. -/
def TrimSpace (s : Str) : Str :=
  (s.dropWhile isSpace).rdropWhile isSpace

/-- Go `strings.HasPrefix`. -/
def HasPrefix (s pre : Str) : Bool := pre.isPrefixOf s

/-- Go `strings.HasSuffix`. -/
def HasSuffix (s suf : Str) : Bool := suf.isSuffixOf s

/-- Go `strings.Contains`: `sub` occurs somewhere inside `s`. -/
def Contains : Str → Str → Bool
  | [], sub => sub.isEmpty
  | c :: cs, sub => sub.isPrefixOf (c :: cs) || Contains cs sub

/-- Go `strings.Split` for a one-character separator (the only use in the
repository is `strings.Split(content, "\n")`): the pieces between separators,
always at least one piece. -/
def Split : Str → Char → List Str
  | [], _ => [[]]
  | c :: cs, sep =>
    if c = sep then [] :: Split cs sep
    else
      match Split cs sep with
      | [] => [[c]]
      | l :: ls => (c :: l) :: ls

/-- Go `unicode.ToLower`: ASCII letters are handled directly, every other
code point is looked up in the Unicode case tables, here the parameter `tbl`. -/
def lowerRune (tbl : Char → Char) (c : Char) : Char :=
  if c.toNat < 128 then
    if 65 ≤ c.toNat ∧ c.toNat ≤ 90 then Char.ofNat (c.toNat + 32) else c
  else tbl c

/-- Go `strings.ToLower`. -/
def ToLower (tbl : Char → Char) (s : Str) : Str := s.map (lowerRune tbl)

/-- Go `strings.TrimSuffix`. -/
def TrimSuffix (s suf : Str) : Str :=
  if suf.isSuffixOf s then s.take (s.length - suf.length) else s

end strings

/-! ## Package `path/filepath` (Unix: the separator is `/`) -/

namespace filepath

/-- Go `os.IsPathSeparator` on Unix. -/
def isPathSeparator (c : Char) : Bool := c == '/'

/-- Loop of `filepath.Ext`, scanning from the last byte backwards; `acc` is
the part of the path already scanned. -/
def extLoop : List Char → Str → Str
  | [], _ => []
  | c :: before, acc =>
    if isPathSeparator c then []
    else if c = '.' then c :: acc
    else extLoop before (c :: acc)

/-- Go `filepath.Ext`: the suffix beginning at the final dot in the final
element of the path, empty if there is no dot. -/
def Ext (path : Str) : Str := extLoop path.reverse []

/-- The inner loop of the `..` case of `filepath.Clean`: the write index moves
back while it is above `dotdot` and does not stand on a separator. -/
def backLoop (out : Str) (dotdot : Nat) : Nat → Nat → Nat
  | 0, w => w
  | fuel + 1, w =>
    if w > dotdot && !isPathSeparator (out.getD w '/') then backLoop out dotdot fuel (w - 1)
    else w

/-- The `..` case of `filepath.Clean` when an element can be removed:
`out.w--`, then the inner loop; the output buffer is cut at the new index. -/
def backtrack (out : Str) (dotdot : Nat) : Str :=
  out.take (backLoop out dotdot out.length (out.length - 1))

/-- The main loop of `filepath.Clean` over the unread part of the path; `out`
is the output buffer, `dotdot` the index where `..` must stop. Every round
reads at least one byte, so the length of the path is enough fuel. -/
def cleanLoop (rooted : Bool) : Nat → Str → Str → Nat → Str
  | 0, _, out, _ => out
  | _ + 1, [], out, _ => out
  | fuel + 1, c :: rest, out, dotdot =>
    if isPathSeparator c then
      cleanLoop rooted fuel rest out dotdot
    else if c = '.' ∧ (rest = [] ∨ isPathSeparator (rest.headD '/')) then
      cleanLoop rooted fuel rest out dotdot
    else if c = '.' ∧ rest.head? = some '.' ∧
        (rest.tail = [] ∨ isPathSeparator (rest.tail.headD '/')) then
      if out.length > dotdot then
        cleanLoop rooted fuel rest.tail (backtrack out dotdot) dotdot
      else if !rooted then
        let out1 := if out.length > 0 then out ++ ['/'] else out
        let out2 := out1 ++ ['.', '.']
        cleanLoop rooted fuel rest.tail out2 out2.length
      else
        cleanLoop rooted fuel rest.tail out dotdot
    else
      let out1 :=
        if (rooted && out.length != 1) || (!rooted && out.length != 0) then out ++ ['/']
        else out
      let elem := (c :: rest).takeWhile (fun x => !isPathSeparator x)
      cleanLoop rooted fuel ((c :: rest).dropWhile (fun x => !isPathSeparator x))
        (out1 ++ elem) dotdot

/-- Go `filepath.Clean` on Unix (no volume name). -/
def Clean (path : Str) : Str :=
  match path with
  | [] => ['.']
  | c :: rest =>
    let rooted := isPathSeparator c
    let out :=
      if rooted then cleanLoop true path.length rest ['/'] 1
      else cleanLoop false path.length path [] 0
    if out.length = 0 then ['.'] else out

/-- Go `filepath.Dir`: everything up to the last separator, cleaned. -/
def Dir (path : Str) : Str :=
  Clean (path.rdropWhile (fun x => !isPathSeparator x))

/-- Go `filepath.Base`: the last element of the path; trailing separators are
removed first. -/
def Base (path : Str) : Str :=
  if path = [] then ['.']
  else
    let stripped := path.rdropWhile isPathSeparator
    let last := stripped.rtakeWhile (fun x => !isPathSeparator x)
    if last = [] then ['/'] else last

/-- Go `filepath.Join` of two elements: the first non-empty element starts the
joined path, which is cleaned. -/
def Join (a b : Str) : Str :=
  if a ≠ [] then Clean (a ++ ['/'] ++ b)
  else if b ≠ [] then Clean b
  else []

end filepath

/-! ## Package `internal/parser` -/

namespace parser

/-- Go `type ScriptType string`. -/
abbrev ScriptType := Str

def ScriptTypePython : ScriptType := "python".toList
def ScriptTypeShell : ScriptType := "shell".toList
def ScriptTypeUnknown : ScriptType := "unknown".toList

/-- Go `Parser.detectScriptType`: extension first, then the shebang. -/
def detectScriptType (tbl : Char → Char) (filePath content : Str) : ScriptType :=
  let ext := strings.ToLower tbl (filepath.Ext filePath)
  if ext = ".py".toList then ScriptTypePython
  else if ext = ".sh".toList ∨ ext = ".bash".toList ∨ ext = ".zsh".toList then
    ScriptTypeShell
  else
    match strings.Split content '\n' with
    | [] => ScriptTypeUnknown
    | l0 :: _ =>
      let firstLine := strings.TrimSpace l0
      if strings.HasPrefix firstLine "#!".toList then
        if strings.Contains firstLine "python".toList then ScriptTypePython
        else if strings.Contains firstLine "bash".toList
            || strings.Contains firstLine "sh".toList
            || strings.Contains firstLine "zsh".toList then ScriptTypeShell
        else ScriptTypeUnknown
      else ScriptTypeUnknown

/-- Go `Parser.IsSupportedType`. -/
def IsSupportedType (scriptType : ScriptType) : Bool :=
  scriptType == ScriptTypePython || scriptType == ScriptTypeShell

end parser

/-! ## Package `regexp`: the two patterns of `cleanCodeBlock`

Go regular expressions match with leftmost-first (backtracking) preference: a
greedy operator tries the longer alternative first, and the first complete
match found in that order is the one reported. Both patterns start with `^`
and end with `$` without flag `m`, so a match spans the whole text. Each
function below is one node of the pattern, applied to the text that is left,
and returns the text captured by the group `(.*)`.
-/

namespace regexp

/-- The class `\s` of Go regular expressions: `[\t\n\f\r ]`. -/
def isReSpace (c : Char) : Bool :=
  c == '\t' || c == '\n' || c == '\x0c' || c == '\r' || c == ' '

/-- The three backquotes of a fence. -/
def fence : Str := "```".toList

/-- The nodes `(.*)`, the closing text and `$`, under flag `s` (the dot also
matches a newline). Greedy: first the dot takes one more code point; only when
that fails is the closing text tried at this place, which must then end the
text. The result is the capture. -/
def matchBody (closing : Str) : Str → Option Str
  | [] => if closing = [] then some [] else none
  | c :: cs =>
    match matchBody closing cs with
    | some cap => some (c :: cap)
    | none => if c :: cs = closing then some [] else none

/-- The nodes `\s*\n` followed by the rest of the pattern. Greedy: first
`\s*` takes one more space; only when that fails is `\n` tried at this
place. -/
def matchSpaces (closing : Str) : Str → Option Str
  | [] => none
  | c :: cs =>
    match (if isReSpace c then matchSpaces closing cs else none) with
    | some cap => some cap
    | none => if c = '\n' then matchBody closing cs else none

/-- The node `(?:go)?` followed by the rest of the pattern: the alternative
that takes `go` is preferred, the empty one is tried when it fails. -/
def matchLang (closing : Str) (s : Str) : Option Str :=
  match (if "go".toList.isPrefixOf s then matchSpaces closing (s.drop 2) else none) with
  | some cap => some cap
  | none => matchSpaces closing s

/-- The whole pattern, from `^` and the opening backquotes on: the result of
`FindStringSubmatch(code)[1]`, or `none` when there is no match. -/
def matchFence (closing : Str) (s : Str) : Option Str :=
  if fence.isPrefixOf s then matchLang closing (s.drop 3) else none

end regexp

/-! ## Package `internal/generator`: `cleanCodeBlock` -/

namespace generator

/-- The closing text of the first pattern: a newline, then the fence. -/
def closing1 : Str := "\n```".toList

/-- The closing text of the second pattern: the fence alone. -/
def closing2 : Str := "```".toList

/-- Go `Generator.cleanCodeBlock`. -/
def cleanCodeBlock (code : Str) : Str :=
  let code := strings.TrimSpace code
  match regexp.matchFence closing1 code with
  | some m => m
  | none =>
    match regexp.matchFence closing2 code with
    | some m => m
    | none => code

end generator

/-! ## Package `internal/llm`: prompts -/

namespace llm

/-- Go `type ScriptType string` of package `llm`. -/
abbrev ScriptType := Str

def ScriptTypePython : ScriptType := "python".toList
def ScriptTypeShell : ScriptType := "shell".toList

/-- The directive of the translation prompt that asks for code only. -/
def onlyCodeDirective : Str :=
  "7. Return ONLY the Go code without any explanation or markdown formatting".toList

/-- Go `BuildTranspilePrompt`: the template with its three `%s` filled in. -/
def BuildTranspilePrompt (scriptType : ScriptType) (code : Str) : Str :=
  "You are an expert Go programmer. Convert the following ".toList ++ scriptType ++
  " script to idiomatic Go code.\n\nRequirements:\n".toList ++
  "1. Use proper error handling with wrapped errors\n".toList ++
  "2. Follow Go naming conventions (camelCase for unexported, PascalCase for exported)\n".toList ++
  "3. Add necessary imports\n".toList ++
  "4. Include a main function that can be compiled into a standalone binary\n".toList ++
  "5. Add brief comments explaining the logic\n".toList ++
  "6. Use the standard library when possible\n".toList ++
  onlyCodeDirective ++ "\n\n".toList ++
  scriptType ++ " script to convert:\n".toList ++
  "```\n".toList ++ code ++ "\n```".toList

/-- Go `BuildRefinePrompt`. -/
def BuildRefinePrompt (goCode errorMessage : Str) : Str :=
  ("The following Go code has a compilation error. Please fix it and return only " ++
   "the corrected Go code without any explanation or markdown formatting.\n\n" ++
   "Error message:\n").toList ++ errorMessage ++
  "\n\nGo code to fix:\n".toList ++ "```go\n".toList ++ goCode ++ "\n```".toList

end llm

/-! ## The outside world

The pipeline reaches the outside through the file system, the generation
client, the Go formatter and the Go toolchain. Their answers are the fields of
`Env`; every call that acts on the outside is appended to a trace of `Event`s.
Calls to the logger have no influence on any result and are left out.
-/

/-- What `os.Stat` found at a path. -/
inductive StatResult
  | notExist (msg : Str)
  | failed (msg : Str)
  | dir
  | file
  deriving DecidableEq

/-- A call that acts on the outside world. -/
inductive Event
  | generate (prompt : Str)
  | mkdirAll (dir : Str)
  | writeFile (path content : Str)
  | goBuild (source binary : Str)
  deriving DecidableEq

/-- The answers of the outside world. An `error` is carried as its message. -/
structure Env where
  /-- the Unicode lower-case table for code points outside ASCII -/
  unicodeLower : Char → Char
  /-- `os.Stat` -/
  stat : Str → StatResult
  /-- `os.ReadFile` -/
  readFile : Str → Except Str Str
  /-- the bound client: `LLMClient.Generate` -/
  generate : Str → Except Str Str
  /-- `format.Source` of package `go/format` -/
  formatSource : Str → Except Str Str
  /-- `os.MkdirAll`: `none` when it succeeds, else the error -/
  mkdirAll : Str → Option Str
  /-- `os.WriteFile`: `none` when it succeeds, else the error -/
  writeFile : Str → Str → Option Str
  /-- the run of `go build`: the combined output, and the error of a failed run -/
  goBuild : Str → Str → Str × Option Str

namespace parser

/-- Go `ParseResult`. -/
structure ParseResult where
  FilePath : Str
  FileName : Str
  ScriptType : ScriptType
  Content : Str
  deriving DecidableEq

/-- Go `Parser.Parse`. -/
def Parse (env : Env) (filePath : Str) : Except Str ParseResult :=
  match env.stat filePath with
  | .notExist e => .error ("file does not exist: ".toList ++ filePath ++ ": ".toList ++ e)
  | .failed e => .error ("failed to stat file: ".toList ++ filePath ++ ": ".toList ++ e)
  | .dir => .error ("path is a directory, not a file: ".toList ++ filePath)
  | .file =>
    match env.readFile filePath with
    | .error e => .error ("failed to read file: ".toList ++ filePath ++ ": ".toList ++ e)
    | .ok content =>
      .ok {
        FilePath := filePath
        FileName := filepath.Base filePath
        ScriptType := detectScriptType env.unicodeLower filePath content
        Content := content }

end parser

namespace generator

/-- Go `GenerateResult`. -/
structure GenerateResult where
  GoCode : Str
  OutputPath : Str
  BinaryPath : Str
  deriving DecidableEq

/-- Go `Generator.Generate`. -/
def Generate (env : Env) (goCode outputPath : Str) (tr : List Event) :
    Except Str GenerateResult × List Event :=
  let cleanCode := cleanCodeBlock goCode
  let formatted :=
    match env.formatSource cleanCode with
    | .ok f => f
    | .error _ => cleanCode
  let outputDir := filepath.Dir outputPath
  let tr1 := tr ++ [Event.mkdirAll outputDir]
  match env.mkdirAll outputDir with
  | some e => (.error ("failed to create output directory: ".toList ++ e), tr1)
  | none =>
    let tr2 := tr1 ++ [Event.writeFile outputPath formatted]
    match env.writeFile outputPath formatted with
    | some e => (.error ("failed to write Go file: ".toList ++ e), tr2)
    | none => (.ok { GoCode := formatted, OutputPath := outputPath, BinaryPath := [] }, tr2)

/-- Go `Generator.Build`. -/
def Build (env : Env) (goFilePath binaryPath : Str) (tr : List Event) :
    Except Str Unit × List Event :=
  let tr1 := tr ++ [Event.goBuild goFilePath binaryPath]
  match env.goBuild goFilePath binaryPath with
  | (output, some e) => (.error ("build failed: ".toList ++ output ++ ": ".toList ++ e), tr1)
  | (_, none) => (.ok (), tr1)

/-- Go `Generator.GetDefaultOutputPath`. -/
def GetDefaultOutputPath (inputPath : Str) : Str :=
  let dir := filepath.Dir inputPath
  let base := filepath.Base inputPath
  let ext := filepath.Ext base
  let name := strings.TrimSuffix base ext
  filepath.Join dir (name ++ ".go".toList)

/-- Go `Generator.GetDefaultBinaryPath`. -/
def GetDefaultBinaryPath (goFilePath : Str) : Str :=
  let dir := filepath.Dir goFilePath
  let base := filepath.Base goFilePath
  let name := strings.TrimSuffix base ".go".toList
  filepath.Join dir name

end generator

/-! ## Package `internal/handler` -/

namespace handler

/-- Go `TranspileOptions`. -/
structure TranspileOptions where
  InputPath : Str
  OutputPath : Str
  Build : Bool
  BinaryPath : Str
  deriving DecidableEq

/-- Go `TranspileResult`. -/
structure TranspileResult where
  GoCode : Str
  OutputPath : Str
  BinaryPath : Str
  deriving DecidableEq

/-- Go `Handler.RequestLLM`. -/
def RequestLLM (env : Env) (scriptType : parser.ScriptType) (code : Str) (tr : List Event) :
    Except Str Str × List Event :=
  let send (llmScriptType : llm.ScriptType) : Except Str Str × List Event :=
    let prompt := llm.BuildTranspilePrompt llmScriptType code
    let tr1 := tr ++ [Event.generate prompt]
    match env.generate prompt with
    | .error e => (.error ("LLM request failed: ".toList ++ e), tr1)
    | .ok goCode => (.ok goCode, tr1)
  if scriptType = parser.ScriptTypePython then send llm.ScriptTypePython
  else if scriptType = parser.ScriptTypeShell then send llm.ScriptTypeShell
  else (.error ("unsupported script type: ".toList ++ scriptType), tr)

/-- Go `Handler.Transpile`. -/
def Transpile (env : Env) (opts : TranspileOptions) (tr : List Event) :
    Except Str TranspileResult × List Event :=
  match parser.Parse env opts.InputPath with
  | .error e => (.error ("failed to parse input file: ".toList ++ e), tr)
  | .ok parsed =>
    if !parser.IsSupportedType parsed.ScriptType then
      (.error ("unsupported script type: ".toList ++ parsed.ScriptType ++
        " (file: ".toList ++ parsed.FileName ++ ")".toList), tr)
    else
      match RequestLLM env parsed.ScriptType parsed.Content tr with
      | (.error e, tr1) => (.error ("failed to transpile: ".toList ++ e), tr1)
      | (.ok goCode, tr1) =>
        let outputPath :=
          if opts.OutputPath = [] then generator.GetDefaultOutputPath opts.InputPath
          else opts.OutputPath
        match generator.Generate env goCode outputPath tr1 with
        | (.error e, tr2) => (.error ("failed to generate Go file: ".toList ++ e), tr2)
        | (.ok genResult, tr2) =>
          let result : TranspileResult :=
            { GoCode := genResult.GoCode, OutputPath := genResult.OutputPath, BinaryPath := [] }
          if opts.Build then
            let binaryPath :=
              if opts.BinaryPath = [] then generator.GetDefaultBinaryPath outputPath
              else opts.BinaryPath
            match generator.Build env outputPath binaryPath tr2 with
            | (.error e, tr3) => (.error ("failed to build binary: ".toList ++ e), tr3)
            | (.ok _, tr3) => (.ok { result with BinaryPath := binaryPath }, tr3)
          else (.ok result, tr2)

end handler

/-! ## Package `internal/llm`: providers and clients

A client reaches its provider through `json.Marshal`, `http.NewRequest`,
`http.Client.Do`, `io.ReadAll` and `json.Unmarshal`. Their answers are the
fields of `Transport`; an `error` is carried as its message.
-/

namespace llm

/-- An HTTP request as a client builds it. -/
structure HTTPRequest where
  Method : Str
  URL : Str
  Header : List (Str × Str)
  Body : Str
  deriving DecidableEq

/-- An HTTP response: the status code and the body stream, not yet read. -/
structure HTTPResponse where
  StatusCode : Nat
  Body : Str
  deriving DecidableEq

/-- Go `Part`. -/
structure Part where
  Text : Str
  deriving DecidableEq

/-- Go `Content`. -/
structure Content where
  Parts : List Part
  deriving DecidableEq

/-- Go `GeminiRequest`. -/
structure GeminiRequest where
  Contents : List Content
  deriving DecidableEq

/-- Go `Candidate`. -/
structure Candidate where
  Content : Content
  deriving DecidableEq

/-- Go `APIError`. -/
structure APIError where
  Code : Int
  Message : Str
  Status : Str
  deriving DecidableEq

/-- Go `GeminiResponse`; a nil `Error` is `none`. -/
structure GeminiResponse where
  Candidates : List Candidate
  Error : Option APIError
  deriving DecidableEq

/-- Go `OpenAIChatMessage`. -/
structure OpenAIChatMessage where
  Role : Str
  Content : Str
  deriving DecidableEq

/-- Go `OpenAIChatRequest`. -/
structure OpenAIChatRequest where
  Model : Str
  Messages : List OpenAIChatMessage
  deriving DecidableEq

/-- Go `OpenAIChatChoice`. -/
structure OpenAIChatChoice where
  Message : OpenAIChatMessage
  FinishReason : Str
  deriving DecidableEq

/-- Go `OpenAIErrorWrapper`. -/
structure OpenAIErrorWrapper where
  Message : Str
  /-- the Go field `Type` -/
  Typ : Str
  Code : Str
  deriving DecidableEq

/-- Go `OpenAIChatResponse`; a nil `Error` is `none`. -/
structure OpenAIChatResponse where
  ID : Str
  Choices : List OpenAIChatChoice
  Error : Option OpenAIErrorWrapper
  deriving DecidableEq

/-- Go `ClaudeMessage`. -/
structure ClaudeMessage where
  Role : Str
  Content : Str
  deriving DecidableEq

/-- Go `ClaudeRequest`. -/
structure ClaudeRequest where
  Model : Str
  MaxTokens : Int
  Messages : List ClaudeMessage
  deriving DecidableEq

/-- Go `ClaudeContentBlock`. -/
structure ClaudeContentBlock where
  /-- the Go field `Type` -/
  Typ : Str
  Text : Str
  deriving DecidableEq

/-- Go `ClaudeError`. -/
structure ClaudeError where
  /-- the Go field `Type` -/
  Typ : Str
  Message : Str
  deriving DecidableEq

/-- Go `ClaudeResponse`; a nil `Error` is `none`. -/
structure ClaudeResponse where
  ID : Str
  /-- the Go field `Type` -/
  Typ : Str
  Content : List ClaudeContentBlock
  Error : Option ClaudeError
  deriving DecidableEq

/-- The answers of the network and of the JSON codec. -/
structure Transport where
  /-- `json.Marshal` of a Gemini request -/
  marshalGemini : GeminiRequest → Except Str Str
  /-- `json.Marshal` of an OpenAI request -/
  marshalOpenAI : OpenAIChatRequest → Except Str Str
  /-- `json.Marshal` of a Claude request -/
  marshalClaude : ClaudeRequest → Except Str Str
  /-- `http.NewRequest` of a method, a URL and a body: `none` when it succeeds -/
  newRequest : Str → Str → Str → Option Str
  /-- `http.Client.Do` under a timeout in seconds -/
  send : Nat → HTTPRequest → Except Str HTTPResponse
  /-- `io.ReadAll` of the body of a response -/
  readAll : HTTPResponse → Except Str Str
  /-- `json.Unmarshal` into a `GeminiResponse` -/
  unmarshalGemini : Str → Except Str GeminiResponse
  /-- `json.Unmarshal` into an `OpenAIChatResponse` -/
  unmarshalOpenAI : Str → Except Str OpenAIChatResponse
  /-- `json.Unmarshal` into a `ClaudeResponse` -/
  unmarshalClaude : Str → Except Str ClaudeResponse

def geminiAPIURL : Str :=
  "https://generativelanguage.googleapis.com/v1beta/models/gemini-2.0-flash:generateContent".toList

def openAIAPIURL : Str := "https://api.openai.com/v1/chat/completions".toList

def openAIModel : Str := "gpt-4o".toList

def claudeAPIURL : Str := "https://api.anthropic.com/v1/messages".toList

def claudeModel : Str := "claude-sonnet-4-20250514".toList

/-- The verb `%d` of `fmt` on an `int`. -/
def fmtInt (n : Int) : Str := (toString n).toList

/-- Go `GeminiClient`: the key and the timeout of its HTTP client, in seconds. -/
structure GeminiClient where
  apiKey : Str
  timeout : Nat
  deriving DecidableEq

/-- Go `OpenAIClient`. -/
structure OpenAIClient where
  apiKey : Str
  timeout : Nat
  deriving DecidableEq

/-- Go `ClaudeClient`. -/
structure ClaudeClient where
  apiKey : Str
  timeout : Nat
  deriving DecidableEq

/-- Go `NewGeminiClient`. -/
def NewGeminiClient (apiKey : Str) : GeminiClient := { apiKey := apiKey, timeout := 60 }

/-- Go `NewOpenAIClient`. -/
def NewOpenAIClient (apiKey : Str) : OpenAIClient := { apiKey := apiKey, timeout := 120 }

/-- Go `NewClaudeClient`. -/
def NewClaudeClient (apiKey : Str) : ClaudeClient := { apiKey := apiKey, timeout := 120 }

/-- The request body of `GeminiClient.Generate`. -/
def geminiReqBody (prompt : Str) : GeminiRequest :=
  { Contents := [{ Parts := [{ Text := prompt }] }] }

/-- The URL of `GeminiClient.Generate`: the key goes into the query string. -/
def geminiURL (c : GeminiClient) : Str := geminiAPIURL ++ "?key=".toList ++ c.apiKey

/-- The HTTP request of `GeminiClient.Generate`, with its header set. -/
def geminiHTTPRequest (c : GeminiClient) (jsonBody : Str) : HTTPRequest :=
  { Method := "POST".toList, URL := geminiURL c,
    Header := [("Content-Type".toList, "application/json".toList)], Body := jsonBody }

/-- Go `GeminiClient.Generate`. -/
def GeminiClient.Generate (t : Transport) (c : GeminiClient) (prompt : Str) : Except Str Str :=
  match t.marshalGemini (geminiReqBody prompt) with
  | .error e => .error ("failed to marshal request: ".toList ++ e)
  | .ok jsonBody =>
    match t.newRequest "POST".toList (geminiURL c) jsonBody with
    | some e => .error ("failed to create request: ".toList ++ e)
    | none =>
      match t.send c.timeout (geminiHTTPRequest c jsonBody) with
      | .error e => .error ("failed to send request: ".toList ++ e)
      | .ok resp =>
        match t.readAll resp with
        | .error e => .error ("failed to read response body: ".toList ++ e)
        | .ok body =>
          match t.unmarshalGemini body with
          | .error e => .error ("failed to unmarshal response: ".toList ++ e)
          | .ok geminiResp =>
            match geminiResp.Error with
            | some apiErr =>
              .error ("API error [".toList ++ fmtInt apiErr.Code ++ "]: ".toList ++ apiErr.Message)
            | none =>
              match geminiResp.Candidates with
              | [] => .error "empty response from Gemini API".toList
              | candidate :: _ =>
                match candidate.Content.Parts with
                | [] => .error "empty response from Gemini API".toList
                | part :: _ => .ok part.Text

/-- The request body of `OpenAIClient.Generate`. -/
def openAIReqBody (prompt : Str) : OpenAIChatRequest :=
  { Model := openAIModel, Messages := [{ Role := "user".toList, Content := prompt }] }

/-- The HTTP request of `OpenAIClient.Generate`: the key is a bearer token. -/
def openAIHTTPRequest (c : OpenAIClient) (jsonBody : Str) : HTTPRequest :=
  { Method := "POST".toList, URL := openAIAPIURL,
    Header := [("Content-Type".toList, "application/json".toList),
               ("Authorization".toList, "Bearer ".toList ++ c.apiKey)],
    Body := jsonBody }

/-- Go `OpenAIClient.Generate`. -/
def OpenAIClient.Generate (t : Transport) (c : OpenAIClient) (prompt : Str) : Except Str Str :=
  match t.marshalOpenAI (openAIReqBody prompt) with
  | .error e => .error ("failed to marshal request: ".toList ++ e)
  | .ok jsonBody =>
    match t.newRequest "POST".toList openAIAPIURL jsonBody with
    | some e => .error ("failed to create request: ".toList ++ e)
    | none =>
      match t.send c.timeout (openAIHTTPRequest c jsonBody) with
      | .error e => .error ("failed to send request: ".toList ++ e)
      | .ok resp =>
        match t.readAll resp with
        | .error e => .error ("failed to read response body: ".toList ++ e)
        | .ok body =>
          match t.unmarshalOpenAI body with
          | .error e => .error ("failed to unmarshal response: ".toList ++ e)
          | .ok openAIResp =>
            match openAIResp.Error with
            | some apiErr =>
              .error ("API error [".toList ++ apiErr.Typ ++ "]: ".toList ++ apiErr.Message)
            | none =>
              match openAIResp.Choices with
              | [] => .error "empty response from OpenAI API".toList
              | choice :: _ => .ok choice.Message.Content

/-- The loop of `ClaudeClient.Generate`: the text of the first block of type
`text`, the empty string when there is none. -/
def firstText : List ClaudeContentBlock → Str
  | [] => []
  | block :: rest => if block.Typ = "text".toList then block.Text else firstText rest

/-- The request body of `ClaudeClient.Generate`. -/
def claudeReqBody (prompt : Str) : ClaudeRequest :=
  { Model := claudeModel, MaxTokens := 8192,
    Messages := [{ Role := "user".toList, Content := prompt }] }

/-- The HTTP request of `ClaudeClient.Generate`: the key has its own header. -/
def claudeHTTPRequest (c : ClaudeClient) (jsonBody : Str) : HTTPRequest :=
  { Method := "POST".toList, URL := claudeAPIURL,
    Header := [("Content-Type".toList, "application/json".toList),
               ("x-api-key".toList, c.apiKey),
               ("anthropic-version".toList, "2023-06-01".toList)],
    Body := jsonBody }

/-- Go `ClaudeClient.Generate`. -/
def ClaudeClient.Generate (t : Transport) (c : ClaudeClient) (prompt : Str) : Except Str Str :=
  match t.marshalClaude (claudeReqBody prompt) with
  | .error e => .error ("failed to marshal request: ".toList ++ e)
  | .ok jsonBody =>
    match t.newRequest "POST".toList claudeAPIURL jsonBody with
    | some e => .error ("failed to create request: ".toList ++ e)
    | none =>
      match t.send c.timeout (claudeHTTPRequest c jsonBody) with
      | .error e => .error ("failed to send request: ".toList ++ e)
      | .ok resp =>
        match t.readAll resp with
        | .error e => .error ("failed to read response body: ".toList ++ e)
        | .ok body =>
          match t.unmarshalClaude body with
          | .error e => .error ("failed to unmarshal response: ".toList ++ e)
          | .ok claudeResp =>
            match claudeResp.Error with
            | some apiErr =>
              .error ("API error [".toList ++ apiErr.Typ ++ "]: ".toList ++ apiErr.Message)
            | none =>
              if claudeResp.Content.length = 0 then
                .error "empty response from Claude API".toList
              else
                let result := firstText claudeResp.Content
                if result = [] then .error "no text content in Claude API response".toList
                else .ok result

/-- Go `type Provider string`. -/
abbrev Provider := Str

def ProviderGemini : Provider := "gemini".toList
def ProviderOpenAI : Provider := "openai".toList
def ProviderClaude : Provider := "claude".toList

/-- Go `ValidProviders`. -/
def ValidProviders : List Provider := [ProviderGemini, ProviderOpenAI, ProviderClaude]

/-- Go `Provider.IsValid`. -/
def Provider.IsValid (p : Provider) : Bool :=
  if p = ProviderGemini ∨ p = ProviderOpenAI ∨ p = ProviderClaude then true else false

/-- Go interface `Clienter`, with its three implementations. -/
inductive Clienter
  | gemini (c : GeminiClient)
  | openai (c : OpenAIClient)
  | claude (c : ClaudeClient)
  deriving DecidableEq

/-- The method `Generate` of the interface `Clienter`. -/
def Clienter.Generate (t : Transport) : Clienter → Str → Except Str Str
  | .gemini c, prompt => c.Generate t prompt
  | .openai c, prompt => c.Generate t prompt
  | .claude c, prompt => c.Generate t prompt

/-- Go `NewClient`. -/
def NewClient (provider : Provider) (apiKey : Str) : Except Str Clienter :=
  if apiKey = [] then
    .error ("API key is required for provider ".toList ++ provider)
  else if provider = ProviderGemini then .ok (.gemini (NewGeminiClient apiKey))
  else if provider = ProviderOpenAI then .ok (.openai (NewOpenAIClient apiKey))
  else if provider = ProviderClaude then .ok (.claude (NewClaudeClient apiKey))
  else .error ("unsupported provider: ".toList ++ provider)

end llm

/-! ## An element-wise reading of `filepath.Clean`

The loop of `Clean` reads its input one path element at a time. The
definitions below describe that reading; they are used to reason about the
loop and are proved equal to it.
-/

namespace filepath

/-- The path elements of a text: its maximal runs without a separator. The
argument `cur` is the element read so far. -/
def elementsAux : Str → Str → List Str
  | [], cur => if cur = [] then [] else [cur]
  | c :: cs, cur =>
    if isPathSeparator c then
      if cur = [] then elementsAux cs [] else cur :: elementsAux cs []
    else elementsAux cs (cur ++ [c])

/-- The path elements of a text. -/
def elements (s : Str) : List Str := elementsAux s []

/-- What one round of the loop of `Clean` does with the element `e`, on the
output buffer and the index `dotdot`. -/
def cleanStep (rooted : Bool) (st : Str × Nat) (e : Str) : Str × Nat :=
  if e = ['.'] then st
  else if e = ['.', '.'] then
    if st.1.length > st.2 then (backtrack st.1 st.2, st.2)
    else if !rooted then
      ((if st.1.length > 0 then st.1 ++ ['/'] else st.1) ++ ['.', '.'],
       ((if st.1.length > 0 then st.1 ++ ['/'] else st.1) ++ ['.', '.']).length)
    else st
  else
    ((if (rooted && st.1.length != 1) || (!rooted && st.1.length != 0) then st.1 ++ ['/']
      else st.1) ++ e, st.2)

/-- The output buffer and the index `dotdot` before the first round. -/
def cleanInit (rooted : Bool) : Str × Nat := if rooted then (['/'], 1) else ([], 0)

/-- The state of the loop of `Clean` after it has read the text `s`. -/
def cleanState (s : Str) : Str × Nat :=
  (elements s).foldl (cleanStep (s.head? == some '/')) (cleanInit (s.head? == some '/'))

/-- The invariant of the loop of `Clean`: `dotdot` lies inside the buffer; a
rooted buffer starts with the separator and an unrooted one does not; and
reading the buffer again, up to its end or up to a separator at or after
`dotdot`, rebuilds what was read. -/
def CleanInv (rooted : Bool) (st : Str × Nat) : Prop :=
  st.2 ≤ st.1.length ∧
  (rooted = true → st.2 = 1 ∧ st.1.head? = some '/') ∧
  (rooted = false → st.1.head? ≠ some '/') ∧
  ∀ w, st.2 ≤ w → w ≤ st.1.length →
    (w = st.1.length ∨ w = st.2 ∨ st.1[w]? = some '/') →
    (elements (st.1.take w)).foldl (cleanStep rooted) (cleanInit rooted) = (st.1.take w, st.2)

end filepath

/-! ## Notions of the specification -/

namespace Spec

/-- Lower-casing of the ASCII letters only; every other code point is kept. -/
def asciiLower (c : Char) : Char :=
  if 65 ≤ c.toNat ∧ c.toNat ≤ 90 then Char.ofNat (c.toNat + 32) else c

/-- Two strings are equal when ASCII case is ignored. -/
def equalFoldASCII (a b : Str) : Prop := a.map asciiLower = b.map asciiLower

instance (a b : Str) : Decidable (equalFoldASCII a b) := by
  unfold equalFoldASCII; infer_instance

/-- The extensions of the classification table. -/
def mappedExtensions : List Str :=
  [".py".toList, ".sh".toList, ".bash".toList, ".zsh".toList]

/-- The first line of a content: everything before the first newline. -/
def firstLine (content : Str) : Str := content.takeWhile (fun c => c != '\n')

/-- The run of `GeminiClient.Generate` on `prompt` gets through the transport:
it receives the HTTP response `resp` and decodes its body to `r`. -/
def geminiRun (t : llm.Transport) (c : llm.GeminiClient) (prompt : Str)
    (resp : llm.HTTPResponse) (r : llm.GeminiResponse) : Prop :=
  ∃ jsonBody body,
    t.marshalGemini (llm.geminiReqBody prompt) = .ok jsonBody ∧
    t.newRequest "POST".toList (llm.geminiURL c) jsonBody = none ∧
    t.send c.timeout (llm.geminiHTTPRequest c jsonBody) = .ok resp ∧
    t.readAll resp = .ok body ∧
    t.unmarshalGemini body = .ok r

/-- The run of `OpenAIClient.Generate` on `prompt` gets through the transport:
it receives the HTTP response `resp` and decodes its body to `r`. -/
def openAIRun (t : llm.Transport) (c : llm.OpenAIClient) (prompt : Str)
    (resp : llm.HTTPResponse) (r : llm.OpenAIChatResponse) : Prop :=
  ∃ jsonBody body,
    t.marshalOpenAI (llm.openAIReqBody prompt) = .ok jsonBody ∧
    t.newRequest "POST".toList llm.openAIAPIURL jsonBody = none ∧
    t.send c.timeout (llm.openAIHTTPRequest c jsonBody) = .ok resp ∧
    t.readAll resp = .ok body ∧
    t.unmarshalOpenAI body = .ok r

/-- The run of `ClaudeClient.Generate` on `prompt` gets through the transport:
it receives the HTTP response `resp` and decodes its body to `r`. -/
def claudeRun (t : llm.Transport) (c : llm.ClaudeClient) (prompt : Str)
    (resp : llm.HTTPResponse) (r : llm.ClaudeResponse) : Prop :=
  ∃ jsonBody body,
    t.marshalClaude (llm.claudeReqBody prompt) = .ok jsonBody ∧
    t.newRequest "POST".toList llm.claudeAPIURL jsonBody = none ∧
    t.send c.timeout (llm.claudeHTTPRequest c jsonBody) = .ok resp ∧
    t.readAll resp = .ok body ∧
    t.unmarshalClaude body = .ok r

/-- The source path that `Transpile` uses: the caller's, or the default. -/
def outputPathOf (opts : handler.TranspileOptions) : Str :=
  if opts.OutputPath = [] then generator.GetDefaultOutputPath opts.InputPath
  else opts.OutputPath

/-- The binary path that `Transpile` uses: the caller's, or the default. -/
def binaryPathOf (opts : handler.TranspileOptions) : Str :=
  if opts.BinaryPath = [] then generator.GetDefaultBinaryPath (outputPathOf opts)
  else opts.BinaryPath

/-- An HTTP status code outside 200..299. -/
def non2xx (status : Nat) : Prop := status < 200 ∨ 300 ≤ status

end Spec

/-! ## A sample environment -/

/-- A small outside world for the examples: `/nonexistent/file.py` is missing,
`/tmp` is a directory, `notes.txt` is a plain text file, every other path is a
python script; the client answers with a fenced Go file; the formatter accepts
only that file; directory creation, writing and the toolchain succeed. -/
def sampleEnv : Env where
  unicodeLower := id
  stat p :=
    if p = "/nonexistent/file.py".toList then .notExist "no such file or directory".toList
    else if p = "/tmp".toList then .dir
    else .file
  readFile p :=
    if p = "notes.txt".toList then .ok "hello\n".toList
    else .ok "#!/usr/bin/env python3\nprint(1)\n".toList
  generate _ := .ok "```go\npackage main\n```".toList
  formatSource s :=
    if s = "package main".toList then .ok "package main\n".toList
    else .error "expected 'package'".toList
  mkdirAll _ := none
  writeFile _ _ := none
  goBuild _ _ := ([], none)

/-- The sample environment with a toolchain that exits non-zero after
printing a diagnostic. -/
def sampleEnvBuildFails : Env :=
  { sampleEnv with
    goBuild := fun _ _ => ("undefined: foo".toList, some "exit status 1".toList) }

/-- A network for the examples: every request is answered with the status
`status` and a body that decodes to `g`, `o` or `cl`, depending on the
provider. -/
def sampleTransport (status : Nat) (g : llm.GeminiResponse) (o : llm.OpenAIChatResponse)
    (cl : llm.ClaudeResponse) : llm.Transport where
  marshalGemini _ := .ok "request".toList
  marshalOpenAI _ := .ok "request".toList
  marshalClaude _ := .ok "request".toList
  newRequest _ _ _ := none
  send _ _ := .ok { StatusCode := status, Body := "response".toList }
  readAll resp := .ok resp.Body
  unmarshalGemini _ := .ok g
  unmarshalOpenAI _ := .ok o
  unmarshalClaude _ := .ok cl

/-- A Gemini response without candidates and without error object. -/
def emptyGemini : llm.GeminiResponse := { Candidates := [], Error := none }

/-- An OpenAI response without choices and without error object. -/
def emptyOpenAI : llm.OpenAIChatResponse := { ID := [], Choices := [], Error := none }

/-- A Claude response without content blocks and without error object. -/
def emptyClaude : llm.ClaudeResponse := { ID := [], Typ := [], Content := [], Error := none }

/-- An OpenAI response with a payload and without error object. -/
def payloadOpenAI : llm.OpenAIChatResponse :=
  { ID := [],
    Choices := [{ Message := { Role := "assistant".toList, Content := "package main".toList },
                  FinishReason := "stop".toList }],
    Error := none }

/-- A Claude response with a payload and without error object. -/
def payloadClaude : llm.ClaudeResponse :=
  { ID := [], Typ := "message".toList,
    Content := [{ Typ := "text".toList, Text := "package main".toList }],
    Error := none }

/-- A Gemini response that carries an error object next to a payload. -/
def errorGemini : llm.GeminiResponse :=
  { Candidates := [{ Content := { Parts := [{ Text := "package main".toList }] } }],
    Error := some { Code := 429, Message := "quota exceeded".toList,
                    Status := "RESOURCE_EXHAUSTED".toList } }

/-- An OpenAI response that carries an error object next to a payload. -/
def errorOpenAI : llm.OpenAIChatResponse :=
  { ID := [],
    Choices := [{ Message := { Role := "assistant".toList, Content := "package main".toList },
                  FinishReason := "stop".toList }],
    Error := some { Message := "rate limit reached".toList,
                    Typ := "rate_limit_error".toList, Code := [] } }

/-- A Claude response that carries an error object next to a payload. -/
def errorClaude : llm.ClaudeResponse :=
  { ID := [], Typ := "error".toList,
    Content := [{ Typ := "text".toList, Text := "package main".toList }],
    Error := some { Typ := "overloaded_error".toList, Message := "overloaded".toList } }

/-! ## The model on the repository's tests and on documented library examples -/

theorem test_Clean_1 :
    filepath.Clean "/path/to/../a//b/./c/".toList = "/path/a/b/c".toList := by decide

theorem test_Clean_2 :
    filepath.Clean "../../a/../../b".toList = "../../../b".toList := by decide

theorem test_Clean_3 :
    filepath.Clean "/../a".toList = "/a".toList := by decide

theorem test_Clean_4 :
    filepath.Clean "a/..".toList = ".".toList := by decide

theorem test_Clean_5 :
    filepath.Clean "./test.py".toList = "test.py".toList := by decide

theorem test_Dir_1 :
    filepath.Dir "/path/to/script.py".toList = "/path/to".toList := by decide

theorem test_Dir_2 :
    filepath.Dir "script.py".toList = ".".toList := by decide

theorem test_Dir_3 :
    filepath.Dir "/script.py".toList = "/".toList := by decide

theorem test_Base_1 :
    filepath.Base "/path/to/script.py//".toList = "script.py".toList := by decide

theorem test_Base_2 :
    filepath.Base "///".toList = "/".toList := by decide

theorem test_Join_1 :
    filepath.Join ".".toList "test.go".toList = "test.go".toList := by decide

theorem test_Clean_6 :
    filepath.Clean "abc/def/../../..".toList = "..".toList := by decide

theorem test_Clean_7 :
    filepath.Clean "/abc/def/../../..".toList = "/".toList := by decide

theorem test_Clean_8 :
    filepath.Clean "abc/../../././../def".toList = "../../def".toList := by decide

theorem test_Clean_9 :
    filepath.Clean "abc//./../def".toList = "def".toList := by decide

theorem test_detectScriptType_1 :
    parser.detectScriptType id "a/b.PY".toList "#!/bin/sh".toList = parser.ScriptTypePython := by decide

theorem test_detectScriptType_2 :
    parser.detectScriptType id "a/b".toList "  #!/bin/sh \nxx".toList = parser.ScriptTypeShell := by decide

theorem test_detectScriptType_3 :
    parser.detectScriptType id "a.x/b".toList " x #!/bin/sh \nxx".toList = parser.ScriptTypeUnknown := by decide

theorem test_GetDefaultOutputPath_1 :
    generator.GetDefaultOutputPath "/path/to/script.py".toList = "/path/to/script.go".toList := by decide

theorem test_GetDefaultOutputPath_2 :
    generator.GetDefaultOutputPath "/path/to/script.sh".toList = "/path/to/script.go".toList := by decide

theorem test_GetDefaultOutputPath_3 :
    generator.GetDefaultOutputPath "./test.py".toList = "test.go".toList := by decide

theorem test_GetDefaultBinaryPath_1 :
    generator.GetDefaultBinaryPath "/path/to/script.go".toList = "/path/to/script".toList := by decide

theorem test_GetDefaultBinaryPath_2 :
    generator.GetDefaultBinaryPath "./test.go".toList = "test".toList := by decide

theorem test_cleanCodeBlock_1 :
    generator.cleanCodeBlock "```go\npackage main\n```".toList = "package main".toList := by decide

theorem test_cleanCodeBlock_2 :
    generator.cleanCodeBlock " \n```\npackage main\n```\n".toList = "package main".toList := by decide

theorem test_cleanCodeBlock_3 :
    generator.cleanCodeBlock "package main".toList = "package main".toList := by decide

theorem test_cleanCodeBlock_4 :
    generator.cleanCodeBlock "```golang\nx\n```".toList = "```golang\nx\n```".toList := by decide

theorem test_cleanCodeBlock_5 :
    generator.cleanCodeBlock "```go\nx\n\n```".toList = "x\n".toList := by decide

theorem test_cleanCodeBlock_6 :
    generator.cleanCodeBlock "```go\nx\n```".toList = "x".toList := by decide

theorem test_cleanCodeBlock_7 :
    generator.cleanCodeBlock "```go\nx ```".toList = "x ".toList := by decide

theorem test_cleanCodeBlock_8 :
    generator.cleanCodeBlock "```go \n\n \nx```".toList = "x".toList := by decide

theorem test_cleanCodeBlock_9 :
    generator.cleanCodeBlock "```go\n```\nx\n```\n```".toList = "```\nx\n```".toList := by decide

/-! ## Lemmas on the capture -/

namespace regexp

theorem matchBody_some (closing : Str) (h : closing ≠ []) :
    ∀ (t cap : Str), matchBody closing t = some cap → t = cap ++ closing := by
  intro t
  induction t with
  | nil => intro cap hm; simp [matchBody, h] at hm
  | cons c cs ih =>
    intro cap hm
    unfold matchBody at hm
    cases hrec : matchBody closing cs with
    | none =>
      rw [hrec] at hm
      by_cases hc : c :: cs = closing
      · simp [hc] at hm; subst hm; simpa using hc
      · simp [hc] at hm
    | some cap1 =>
      rw [hrec] at hm
      simp at hm
      subst hm
      simp [ih cap1 hrec]

theorem matchBody_append (closing : Str) (h : closing ≠ []) :
    ∀ (cap : Str), matchBody closing (cap ++ closing) = some cap := by
  intro cap
  induction cap with
  | nil =>
    cases hcl : closing with
    | nil => exact absurd hcl h
    | cons c cs =>
      simp only [List.nil_append]
      unfold matchBody
      cases hrec : matchBody (c :: cs) cs with
      | none => simp
      | some cap1 =>
        have := matchBody_some (c :: cs) (by simp) cs cap1 hrec
        have hl := congrArg List.length this
        simp at hl
        omega
  | cons a cap1 ih =>
    simp only [List.cons_append]
    unfold matchBody
    rw [ih]

end regexp

/-! ## Lemmas on `strings.TrimSpace` -/

namespace strings

theorem rdropWhile_append_of_pos (p : Char → Bool) (l ws : Str) (h : ∀ c ∈ ws, p c = true) :
    (l ++ ws).rdropWhile p = l.rdropWhile p := by
  unfold List.rdropWhile
  rw [List.reverse_append, List.dropWhile_append_of_pos]
  intro a ha
  exact h a (List.mem_reverse.mp ha)

theorem TrimSpace_surround (ws1 s ws2 : Str) (h1 : ∀ c ∈ ws1, isSpace c = true)
    (h2 : ∀ c ∈ ws2, isSpace c = true) : TrimSpace (ws1 ++ s ++ ws2) = TrimSpace s := by
  unfold TrimSpace
  rw [List.append_assoc, List.dropWhile_append_of_pos h1, List.dropWhile_append]
  split
  · rename_i hemp
    have hnil : List.dropWhile isSpace s = [] := by simpa using hemp
    rw [hnil, (List.dropWhile_eq_nil_iff).mpr h2]
  · exact rdropWhile_append_of_pos _ _ _ h2

theorem TrimSpace_eq_self (s : Str) (hh : ∀ c, s.head? = some c → isSpace c = false)
    (hl : ∀ c, s.getLast? = some c → isSpace c = false) : TrimSpace s = s := by
  unfold TrimSpace
  have h1 : s.dropWhile isSpace = s := by
    cases s with
    | nil => rfl
    | cons a t => simp [List.dropWhile, hh a rfl]
  rw [h1, List.rdropWhile_eq_self_iff]
  intro hne
  have := hl (s.getLast hne) (List.getLast?_eq_getLast s hne)
  simp [this]

theorem TrimSpace_idem (s : Str) : TrimSpace (TrimSpace s) = TrimSpace s := by
  apply TrimSpace_eq_self
  · intro c hc
    unfold TrimSpace at hc
    have hpre : (s.dropWhile isSpace).rdropWhile isSpace <+: s.dropWhile isSpace :=
      List.rdropWhile_prefix _ _
    obtain ⟨t, ht⟩ := hpre
    cases hd : List.rdropWhile isSpace (List.dropWhile isSpace s) with
    | nil => rw [hd] at hc; simp at hc
    | cons a u =>
      rw [hd] at hc ht
      simp at hc
      subst hc
      have := List.head_dropWhile_not isSpace s (by rw [← ht]; simp)
      simpa [← ht] using this
  · intro c hc
    unfold TrimSpace at hc
    by_cases hne : List.rdropWhile isSpace (List.dropWhile isSpace s) = []
    · rw [hne] at hc; simp at hc
    · have := List.rdropWhile_last_not isSpace (List.dropWhile isSpace s) hne
      rw [List.getLast?_eq_getLast _ hne] at hc
      simp at hc
      subst hc
      simpa using this

end strings

/-! ## Lemmas on the fence patterns -/

namespace regexp

theorem matchSpaces_nonspace (closing : Str) (c : Char) (cs : Str)
    (h : isReSpace c = false) : matchSpaces closing (c :: cs) = none := by
  have hc : c ≠ '\n' := by
    rintro rfl
    revert h
    decide
  simp [matchSpaces, h, hc]

/-- A match of `\s*\n(.*)` and the closing text leaves the capture followed by
the closing text at the end of the input. -/
theorem matchSpaces_some_suffix (closing : Str) (h : closing ≠ []) :
    ∀ (s cap : Str), matchSpaces closing s = some cap → ∃ pre, s = pre ++ cap ++ closing := by
  intro s
  induction s with
  | nil => intro cap hm; simp [matchSpaces] at hm
  | cons c cs ih =>
    intro cap hm
    unfold matchSpaces at hm
    cases hrec : (if isReSpace c then matchSpaces closing cs else none) with
    | some cap1 =>
      rw [hrec] at hm
      simp at hm
      subst hm
      by_cases hsp : isReSpace c = true
      · simp [hsp] at hrec
        obtain ⟨pre, hpre⟩ := ih cap1 hrec
        exact ⟨c :: pre, by simp [hpre]⟩
      · simp [hsp] at hrec
    | none =>
      rw [hrec] at hm
      by_cases hc : c = '\n'
      · simp [hc] at hm
        exact ⟨[c], by simp [matchBody_some closing h cs cap hm]⟩
      · simp [hc] at hm

/-- After a newline the pattern always finds a match when the text that
follows is a capture and the closing text. -/
theorem matchSpaces_newline_isSome (closing : Str) (h : closing ≠ []) (body : Str) :
    (matchSpaces closing ('\n' :: (body ++ closing))).isSome = true := by
  unfold matchSpaces
  cases (if isReSpace '\n' then matchSpaces closing (body ++ closing) else none) with
  | some cap1 => simp
  | none => simp [matchBody_append closing h body]

/-- A body that is empty or starts outside `\s` is captured whole. -/
theorem matchSpaces_newline_body (body : Str)
    (hb : ∀ c, body.head? = some c → isReSpace c = false) :
    matchSpaces generator.closing1 ('\n' :: (body ++ generator.closing1)) = some body := by
  cases body with
  | nil => decide
  | cons b bs =>
    have hns := matchSpaces_nonspace generator.closing1 b (bs ++ generator.closing1) (hb b rfl)
    unfold matchSpaces
    simp only [List.cons_append] at hns ⊢
    rw [hns]
    have := matchBody_append generator.closing1 (by decide) (b :: bs)
    simp only [List.cons_append] at this
    simp [this]

theorem getLast?_cons_ne (c : Char) (Y : Str) (x : Char)
    (h : (c :: Y).getLast? ≠ some x) : Y.getLast? ≠ some x := by
  intro hY
  apply h
  rw [List.getLast?_cons, hY]
  rfl

/-- With a body that does not end in a newline, the first pattern on the
layout "fence on its own line" and the second pattern on the layout "fence
right after the content" capture the same text. -/
theorem matchSpaces_layouts (Y : Str) (hY : Y.getLast? ≠ some '\n') :
    matchSpaces generator.closing1 (Y ++ generator.closing1)
      = matchSpaces generator.closing2 (Y ++ generator.closing2) := by
  induction Y with
  | nil => decide
  | cons c Y1 ih =>
    have ih1 := ih (getLast?_cons_ne c Y1 _ hY)
    simp only [List.cons_append]
    unfold matchSpaces
    rw [ih1, matchBody_append _ (by decide), matchBody_append _ (by decide)]

/-- With a body that does not end in a newline, the first pattern does not
match the layout "fence right after the content". -/
theorem matchSpaces_closing1_none (Y : Str) (hY : Y.getLast? ≠ some '\n') :
    matchSpaces generator.closing1 (Y ++ generator.closing2) = none := by
  induction Y with
  | nil => decide
  | cons c Y1 ih =>
    have hY1 := getLast?_cons_ne c Y1 _ hY
    simp only [List.cons_append]
    unfold matchSpaces
    rw [ih hY1]
    cases hb : matchBody generator.closing1 (Y1 ++ generator.closing2) with
    | none => simp
    | some cap =>
      exfalso
      have := matchBody_some generator.closing1 (by decide) _ _ hb
      have h2 : Y1 ++ generator.closing2 = (cap ++ ['\n']) ++ generator.closing2 := by
        rw [this]; simp [generator.closing1, generator.closing2]
      have h3 := List.append_cancel_right h2
      apply hY1
      rw [h3]
      simp

theorem matchLang_some_suffix (closing : Str) (h : closing ≠ []) (s cap : Str)
    (hm : matchLang closing s = some cap) : ∃ pre, s = pre ++ cap ++ closing := by
  unfold matchLang at hm
  cases hgo : (if "go".toList.isPrefixOf s then matchSpaces closing (s.drop 2) else none) with
  | some cap1 =>
    rw [hgo] at hm
    simp at hm
    subst hm
    by_cases hp : "go".toList.isPrefixOf s = true
    · rw [if_pos hp] at hgo
      obtain ⟨pre, hpre⟩ := matchSpaces_some_suffix closing h _ _ hgo
      refine ⟨s.take 2 ++ pre, ?_⟩
      calc s = s.take 2 ++ s.drop 2 := (List.take_append_drop 2 s).symm
        _ = s.take 2 ++ pre ++ cap1 ++ closing := by rw [hpre]; simp
    · rw [if_neg hp] at hgo
      cases hgo
  | none =>
    rw [hgo] at hm
    exact matchSpaces_some_suffix closing h _ _ hm

/-- A text matched by a fence pattern starts with the fence and ends with
the closing text. -/
theorem matchFence_some (closing : Str) (h : closing ≠ []) (s cap : Str)
    (hm : matchFence closing s = some cap) :
    fence.isPrefixOf s = true ∧ ∃ pre, s = pre ++ cap ++ closing := by
  unfold matchFence at hm
  by_cases hp : fence.isPrefixOf s = true
  · rw [if_pos hp] at hm
    refine ⟨hp, ?_⟩
    obtain ⟨pre, hpre⟩ := matchLang_some_suffix closing h _ _ hm
    refine ⟨s.take 3 ++ pre, ?_⟩
    calc s = s.take 3 ++ s.drop 3 := (List.take_append_drop 3 s).symm
      _ = s.take 3 ++ pre ++ cap ++ closing := by rw [hpre]; simp
  · rw [if_neg hp] at hm
    cases hm

end regexp

namespace regexp

theorem fence_eq : fence = [Char.ofNat 96, Char.ofNat 96, Char.ofNat 96] := by decide

theorem isSpace_of_isReSpace (c : Char) (h : strings.isSpace c = false) :
    isReSpace c = false := by
  cases hr : isReSpace c with
  | false => rfl
  | true =>
    exfalso
    simp only [isReSpace, Bool.or_eq_true, beq_iff_eq] at hr
    rcases hr with (((rfl | rfl) | rfl) | rfl) | rfl <;> revert h <;> decide

/-- The pattern on a text that opens with the fence and the tag `go`. -/
theorem matchFence_go (closing r : Str) :
    matchFence closing (fence ++ 'g' :: 'o' :: r) = matchSpaces closing r := by
  have h1 : fence.isPrefixOf (fence ++ 'g' :: 'o' :: r) = true := by simp
  have h2 : (fence ++ 'g' :: 'o' :: r).drop 3 = 'g' :: 'o' :: r := by rw [fence_eq]; rfl
  have h3 : "go".toList.isPrefixOf ('g' :: 'o' :: r) = true := by
    have : "go".toList = ['g', 'o'] := rfl
    rw [this]; simp [List.isPrefixOf]
  have h4 : List.drop 2 ('g' :: 'o' :: r) = r := rfl
  unfold matchFence matchLang
  rw [if_pos h1, h2, if_pos h3, h4, matchSpaces_nonspace closing 'g' _ (by decide)]
  cases matchSpaces closing r <;> rfl

/-- The pattern on a text that opens with the fence and a newline. -/
theorem matchFence_plain (closing r : Str) :
    matchFence closing (fence ++ '\n' :: r) = matchSpaces closing ('\n' :: r) := by
  have h1 : fence.isPrefixOf (fence ++ '\n' :: r) = true := by simp
  have h2 : (fence ++ '\n' :: r).drop 3 = '\n' :: r := by rw [fence_eq]; rfl
  have h3 : "go".toList.isPrefixOf ('\n' :: r) = false := by
    have : "go".toList = ['g', 'o'] := rfl
    rw [this]; simp [List.isPrefixOf]
  unfold matchFence matchLang
  rw [if_pos h1, h2, h3]
  simp

end regexp

namespace generator

theorem cleanCodeBlock_trim (x : Str) :
    cleanCodeBlock (strings.TrimSpace x) = cleanCodeBlock x := by
  unfold cleanCodeBlock
  simp only [strings.TrimSpace_idem]

/-- The first pattern decides the result whenever it matches the trimmed text. -/
theorem cleanCodeBlock_of_match1 (x F cap : Str) (ht : strings.TrimSpace x = F)
    (hm : regexp.matchFence closing1 F = some cap) : cleanCodeBlock x = cap := by
  unfold cleanCodeBlock
  simp only [ht, hm]

/-- The second pattern decides the result when the first one does not match. -/
theorem cleanCodeBlock_of_match2 (x F : Str) (r : Option Str) (ht : strings.TrimSpace x = F)
    (hm1 : regexp.matchFence closing1 F = none) (hm2 : regexp.matchFence closing2 F = r) :
    cleanCodeBlock x = r.getD F := by
  unfold cleanCodeBlock
  simp only [ht, hm1, hm2]
  cases r <;> rfl

/-- A text that opens and ends with a backquote is left alone by `TrimSpace`. -/
theorem TrimSpace_fenced (mid : Str) :
    strings.TrimSpace (regexp.fence ++ mid ++ regexp.fence) = regexp.fence ++ mid ++ regexp.fence := by
  apply strings.TrimSpace_eq_self
  · intro c hc
    rw [regexp.fence_eq] at hc
    simp at hc
    subst hc
    decide
  · intro c hc
    rw [regexp.fence_eq, List.getLast?_append] at hc
    simp at hc
    subst hc
    decide

/-- Without a match of either pattern the result is the trimmed text. -/
theorem cleanCodeBlock_no_fence (x : Str)
    (h : ¬ (strings.HasPrefix (strings.TrimSpace x) "```".toList = true ∧
            strings.HasSuffix (strings.TrimSpace x) "```".toList = true)) :
    cleanCodeBlock x = strings.TrimSpace x := by
  have key : ∀ closing : Str, closing ≠ [] → regexp.fence <:+ closing →
      regexp.matchFence closing (strings.TrimSpace x) = none := by
    intro closing hne hsuf
    cases hm : regexp.matchFence closing (strings.TrimSpace x) with
    | none => rfl
    | some cap =>
      exfalso
      apply h
      obtain ⟨hp, pre, hpre⟩ := regexp.matchFence_some closing hne _ _ hm
      refine ⟨hp, ?_⟩
      unfold strings.HasSuffix
      rw [List.isSuffixOf_iff_suffix]
      obtain ⟨u, hu⟩ := hsuf
      exact ⟨pre ++ cap ++ u, by rw [hpre, ← hu]; simp [regexp.fence]⟩
  unfold cleanCodeBlock
  simp only [key closing1 (by decide) ⟨['\n'], rfl⟩, key closing2 (by decide) ⟨[], rfl⟩]

end generator

/-! ## Claims on `cleanCodeBlock` -/

namespace generator

theorem cleanCodeBlock_fenced_body (B : Str)
    (hB : ∀ c, B.head? = some c → strings.isSpace c = false) :
    cleanCodeBlock ("```go\n".toList ++ B ++ "\n```".toList) = B ∧
    cleanCodeBlock ("```\n".toList ++ B ++ "\n```".toList) = B := by
  have hB1 : ∀ c, B.head? = some c → regexp.isReSpace c = false :=
    fun c hc => regexp.isSpace_of_isReSpace c (hB c hc)
  have hbody := regexp.matchSpaces_newline_body B hB1
  constructor
  · have hshape : "```go\n".toList ++ B ++ "\n```".toList
        = regexp.fence ++ ('g' :: 'o' :: '\n' :: (B ++ ['\n'])) ++ regexp.fence := by
      simp [regexp.fence]
    have hshape2 : "```go\n".toList ++ B ++ "\n```".toList
        = regexp.fence ++ 'g' :: 'o' :: '\n' :: (B ++ closing1) := by
      simp [regexp.fence, closing1]
    have ht : strings.TrimSpace ("```go\n".toList ++ B ++ "\n```".toList)
        = "```go\n".toList ++ B ++ "\n```".toList := by
      rw [hshape]; exact TrimSpace_fenced _
    have hm : regexp.matchFence closing1 ("```go\n".toList ++ B ++ "\n```".toList) = some B := by
      rw [hshape2, regexp.matchFence_go]; exact hbody
    exact cleanCodeBlock_of_match1 _ _ _ ht hm
  · have hshape : "```\n".toList ++ B ++ "\n```".toList
        = regexp.fence ++ ('\n' :: (B ++ ['\n'])) ++ regexp.fence := by
      simp [regexp.fence]
    have hshape2 : "```\n".toList ++ B ++ "\n```".toList
        = regexp.fence ++ '\n' :: (B ++ closing1) := by
      simp [regexp.fence, closing1]
    have ht : strings.TrimSpace ("```\n".toList ++ B ++ "\n```".toList)
        = "```\n".toList ++ B ++ "\n```".toList := by
      rw [hshape]; exact TrimSpace_fenced _
    have hm : regexp.matchFence closing1 ("```\n".toList ++ B ++ "\n```".toList) = some B := by
      rw [hshape2, regexp.matchFence_plain]; exact hbody
    exact cleanCodeBlock_of_match1 _ _ _ ht hm

theorem cleanCodeBlock_surround (ws1 s ws2 : Str) (h1 : ∀ c ∈ ws1, strings.isSpace c = true)
    (h2 : ∀ c ∈ ws2, strings.isSpace c = true) :
    cleanCodeBlock (ws1 ++ s ++ ws2) = cleanCodeBlock s := by
  rw [← cleanCodeBlock_trim (ws1 ++ s ++ ws2), strings.TrimSpace_surround ws1 s ws2 h1 h2,
    cleanCodeBlock_trim]

end generator

/-- C5: for every body `B` that is empty or begins with a non-whitespace
character, `cleanCodeBlock` of the block fenced with tag `go`, and of the
block fenced without a tag, is exactly `B`; white space `ws1`, `ws2` around the
whole fenced input does not change the result. -/
theorem C5_cleanCodeBlock_fenced (B ws1 ws2 : Str)
    (hB : ∀ c, B.head? = some c → strings.isSpace c = false)
    (h1 : ∀ c ∈ ws1, strings.isSpace c = true)
    (h2 : ∀ c ∈ ws2, strings.isSpace c = true) :
    generator.cleanCodeBlock ("```go\n".toList ++ B ++ "\n```".toList) = B ∧
    generator.cleanCodeBlock ("```\n".toList ++ B ++ "\n```".toList) = B ∧
    generator.cleanCodeBlock (ws1 ++ ("```go\n".toList ++ B ++ "\n```".toList) ++ ws2) = B ∧
    generator.cleanCodeBlock (ws1 ++ ("```\n".toList ++ B ++ "\n```".toList) ++ ws2) = B := by
  obtain ⟨hgo, hplain⟩ := generator.cleanCodeBlock_fenced_body B hB
  refine ⟨hgo, hplain, ?_, ?_⟩
  · rw [generator.cleanCodeBlock_surround _ _ _ h1 h2, hgo]
  · rw [generator.cleanCodeBlock_surround _ _ _ h1 h2, hplain]

/-- C5 at the body of the repository's test, with white space around the
fenced input. -/
theorem C5_cleanCodeBlock_fenced_witness :
    generator.cleanCodeBlock ("```go\n".toList ++ "package main".toList ++ "\n```".toList)
      = "package main".toList ∧
    generator.cleanCodeBlock ("```\n".toList ++ "package main".toList ++ "\n```".toList)
      = "package main".toList ∧
    generator.cleanCodeBlock (" \n".toList ++
      ("```go\n".toList ++ "package main".toList ++ "\n```".toList) ++ "\n\t".toList)
      = "package main".toList ∧
    generator.cleanCodeBlock (" \n".toList ++
      ("```\n".toList ++ "package main".toList ++ "\n```".toList) ++ "\n\t".toList)
      = "package main".toList :=
  C5_cleanCodeBlock_fenced "package main".toList " \n".toList "\n\t".toList
    (by decide) (by decide) (by decide)

/-- C8: for every input whose whitespace-trimmed form does not both start and
end with three backquotes, `cleanCodeBlock` returns the trimmed input. -/
theorem C8_cleanCodeBlock_no_fence (x : Str)
    (h : ¬ (strings.HasPrefix (strings.TrimSpace x) "```".toList = true ∧
            strings.HasSuffix (strings.TrimSpace x) "```".toList = true)) :
    generator.cleanCodeBlock x = strings.TrimSpace x :=
  generator.cleanCodeBlock_no_fence x h

/-- C8 at the input of the repository's test "no code block", with white
space around it. -/
theorem C8_cleanCodeBlock_no_fence_witness :
    generator.cleanCodeBlock "  package main\n".toList = "package main".toList :=
  C8_cleanCodeBlock_no_fence "  package main\n".toList (by decide)

namespace regexp

/-- A tag other than `go`, free of white space, makes the pattern fail. -/
theorem matchLang_tag_none (closing T rest : Str) (hT : T ≠ []) (hgo : T ≠ "go".toList)
    (hns : ∀ c ∈ T, strings.isSpace c = false) :
    matchLang closing (T ++ '\n' :: rest) = none := by
  have hgo2 : "go".toList = ['g', 'o'] := rfl
  rw [hgo2] at hgo
  cases T with
  | nil => exact absurd rfl hT
  | cons a T1 =>
    have ha : isReSpace a = false := isSpace_of_isReSpace a (hns a (by simp))
    unfold matchLang
    rw [List.cons_append, matchSpaces_nonspace closing a _ ha, hgo2]
    cases T1 with
    | nil =>
      by_cases hag : a = 'g'
      · subst hag; simp [List.isPrefixOf]
      · simp [List.isPrefixOf, hag]
    | cons b T2 =>
      by_cases hp : (['g', 'o'] : Str).isPrefixOf (a :: (b :: T2 ++ '\n' :: rest)) = true
      · rw [if_pos hp]
        simp [List.isPrefixOf] at hp
        obtain ⟨rfl, rfl⟩ := hp
        cases T2 with
        | nil => exact absurd rfl hgo
        | cons d T3 =>
          have hd : isReSpace d = false := isSpace_of_isReSpace d (hns d (by simp))
          show (match matchSpaces closing (d :: (T3 ++ '\n' :: rest)) with
            | some cap => some cap | none => none) = none
          rw [matchSpaces_nonspace closing d _ hd]
      · rw [if_neg hp]

end regexp

namespace generator

/-- The two layouts of the closing fence, for a body that is not empty and
does not end in a newline: what the two patterns find after the opening
fence and tag. -/
theorem layouts_aux (B : Str) (hB : B.getLast? ≠ some '\n') (hne : B ≠ []) :
    ∃ cap, regexp.matchSpaces closing1 ('\n' :: (B ++ closing1)) = some cap ∧
      regexp.matchSpaces closing1 ('\n' :: (B ++ closing2)) = none ∧
      regexp.matchSpaces closing2 ('\n' :: (B ++ closing2)) = some cap := by
  have hY : ('\n' :: B).getLast? ≠ some '\n' := by
    cases B with
    | nil => exact absurd rfl hne
    | cons b B1 => simpa using hB
  have h1 := regexp.matchSpaces_layouts ('\n' :: B) hY
  have h2 := regexp.matchSpaces_closing1_none ('\n' :: B) hY
  have h3 := regexp.matchSpaces_newline_isSome closing1 (by decide) B
  simp only [List.cons_append] at h1 h2
  cases hm : regexp.matchSpaces closing1 ('\n' :: (B ++ closing1)) with
  | none => rw [hm] at h3; cases h3
  | some cap => exact ⟨cap, rfl, h2, by rw [← h1, hm]⟩

theorem cleanCodeBlock_layouts (B : Str) (hB : B.getLast? ≠ some '\n') :
    cleanCodeBlock ("```go\n".toList ++ B ++ "\n```".toList)
      = cleanCodeBlock ("```go\n".toList ++ B ++ "```".toList) ∧
    cleanCodeBlock ("```\n".toList ++ B ++ "\n```".toList)
      = cleanCodeBlock ("```\n".toList ++ B ++ "```".toList) := by
  by_cases hne : B = []
  · subst hne; decide
  obtain ⟨cap, h1, h2, h3⟩ := layouts_aux B hB hne
  have tgo1 : "```go\n".toList ++ B ++ "\n```".toList
      = regexp.fence ++ ('g' :: 'o' :: '\n' :: (B ++ ['\n'])) ++ regexp.fence := by
    simp [regexp.fence]
  have tgo2 : "```go\n".toList ++ B ++ "```".toList
      = regexp.fence ++ ('g' :: 'o' :: '\n' :: B) ++ regexp.fence := by
    simp [regexp.fence]
  have tpl1 : "```\n".toList ++ B ++ "\n```".toList
      = regexp.fence ++ ('\n' :: (B ++ ['\n'])) ++ regexp.fence := by
    simp [regexp.fence]
  have tpl2 : "```\n".toList ++ B ++ "```".toList
      = regexp.fence ++ ('\n' :: B) ++ regexp.fence := by
    simp [regexp.fence]
  have sgo1 : "```go\n".toList ++ B ++ "\n```".toList
      = regexp.fence ++ 'g' :: 'o' :: '\n' :: (B ++ closing1) := by
    simp [regexp.fence, closing1]
  have sgo2 : "```go\n".toList ++ B ++ "```".toList
      = regexp.fence ++ 'g' :: 'o' :: '\n' :: (B ++ closing2) := by
    simp [regexp.fence, closing2]
  have spl1 : "```\n".toList ++ B ++ "\n```".toList
      = regexp.fence ++ '\n' :: (B ++ closing1) := by
    simp [regexp.fence, closing1]
  have spl2 : "```\n".toList ++ B ++ "```".toList
      = regexp.fence ++ '\n' :: (B ++ closing2) := by
    simp [regexp.fence, closing2]
  constructor
  · rw [cleanCodeBlock_of_match1 _ ("```go\n".toList ++ B ++ "\n```".toList) cap
        (by rw [tgo1]; exact TrimSpace_fenced _)
        (by rw [sgo1, regexp.matchFence_go]; exact h1),
      cleanCodeBlock_of_match2 _ ("```go\n".toList ++ B ++ "```".toList) (some cap)
        (by rw [tgo2]; exact TrimSpace_fenced _)
        (by rw [sgo2, regexp.matchFence_go]; exact h2)
        (by rw [sgo2, regexp.matchFence_go]; exact h3)]
    rfl
  · rw [cleanCodeBlock_of_match1 _ ("```\n".toList ++ B ++ "\n```".toList) cap
        (by rw [tpl1]; exact TrimSpace_fenced _)
        (by rw [spl1, regexp.matchFence_plain]; exact h1),
      cleanCodeBlock_of_match2 _ ("```\n".toList ++ B ++ "```".toList) (some cap)
        (by rw [tpl2]; exact TrimSpace_fenced _)
        (by rw [spl2, regexp.matchFence_plain]; exact h2)
        (by rw [spl2, regexp.matchFence_plain]; exact h3)]
    rfl

theorem cleanCodeBlock_other_tag (T B : Str) (hT : T ≠ []) (hgo : T ≠ "go".toList)
    (hns : ∀ c ∈ T, strings.isSpace c = false) :
    cleanCodeBlock ("```".toList ++ T ++ "\n".toList ++ B ++ "\n```".toList)
      = "```".toList ++ T ++ "\n".toList ++ B ++ "\n```".toList := by
  have hshape : "```".toList ++ T ++ "\n".toList ++ B ++ "\n```".toList
      = regexp.fence ++ (T ++ '\n' :: (B ++ ['\n'])) ++ regexp.fence := by
    simp [regexp.fence]
  have hnone : ∀ closing, regexp.matchFence closing
      ("```".toList ++ T ++ "\n".toList ++ B ++ "\n```".toList) = none := by
    intro closing
    have hs2 : "```".toList ++ T ++ "\n".toList ++ B ++ "\n```".toList
        = regexp.fence ++ (T ++ '\n' :: (B ++ "\n```".toList)) := by
      simp [regexp.fence]
    have hd : (regexp.fence ++ (T ++ '\n' :: (B ++ "\n```".toList))).drop 3
        = T ++ '\n' :: (B ++ "\n```".toList) := by
      rw [regexp.fence_eq]; rfl
    rw [hs2]
    unfold regexp.matchFence
    rw [if_pos (by simp), hd]
    exact regexp.matchLang_tag_none closing T _ hT hgo hns
  have := cleanCodeBlock_of_match2 _
    ("```".toList ++ T ++ "\n".toList ++ B ++ "\n```".toList) none
    (by rw [hshape]; exact TrimSpace_fenced _) (hnone closing1) (hnone closing2)
  simpa using this

end generator

/-- C6, the claim as stated fails: the interior of a fenced block is returned
as it stands, so a second pass still trims the white space it carries. -/
theorem C6_idempotent_counterexample :
    generator.cleanCodeBlock (generator.cleanCodeBlock "```go\nx \n```".toList)
      ≠ generator.cleanCodeBlock "```go\nx \n```".toList := by
  decide

namespace strings

theorem TrimSpace_length_le (s : Str) : (TrimSpace s).length ≤ s.length :=
  le_trans (List.rdropWhile_prefix _ _).length_le (List.dropWhile_suffix _).length_le

end strings

namespace generator

/-- A text is left as it is by `cleanCodeBlock` exactly when it carries no
white space at its ends and is matched by neither fence pattern. -/
theorem cleanCodeBlock_fixed_iff (y : Str) :
    cleanCodeBlock y = y ↔
      (strings.TrimSpace y = y ∧ regexp.matchFence closing1 y = none ∧
        regexp.matchFence closing2 y = none) := by
  have hlen := strings.TrimSpace_length_le y
  have hshort : ∀ (closing cap : Str), closing ≠ [] →
      regexp.matchFence closing (strings.TrimSpace y) = some cap → cap ≠ y := by
    intro closing cap hne hm heq
    obtain ⟨_, pre, hpre⟩ := regexp.matchFence_some closing hne _ _ hm
    have hl := congrArg List.length hpre
    have hcl : 0 < closing.length := List.length_pos.mpr hne
    rw [heq] at hl
    simp only [List.length_append] at hl
    omega
  constructor
  · intro h
    unfold cleanCodeBlock at h
    simp only at h
    cases hm1 : regexp.matchFence closing1 (strings.TrimSpace y) with
    | some cap =>
      rw [hm1] at h
      exact absurd h (hshort closing1 cap (by decide) hm1)
    | none =>
      rw [hm1] at h
      cases hm2 : regexp.matchFence closing2 (strings.TrimSpace y) with
      | some cap =>
        rw [hm2] at h
        exact absurd h (hshort closing2 cap (by decide) hm2)
      | none =>
        rw [hm2] at h
        have ht : strings.TrimSpace y = y := h
        rw [ht] at hm1 hm2
        exact ⟨ht, hm1, hm2⟩
  · rintro ⟨ht, h1, h2⟩
    unfold cleanCodeBlock
    simp only [ht, h1, h2]

end generator

/-- C6, amended: a second pass returns the result of the first unchanged
exactly when that result carries no white space at its ends and is not itself
matched as a fenced block. This holds for every input from which no fence is
stripped (the result is the trimmed input, in particular when the trimmed
input does not both start and end with three backquotes), and for every
input, fenced or not, whose result has no white space at its ends and does
not both start and end with three backquotes. -/
theorem C6_idempotent_iff_result_clean (x : Str) :
    (generator.cleanCodeBlock (generator.cleanCodeBlock x) = generator.cleanCodeBlock x ↔
      (strings.TrimSpace (generator.cleanCodeBlock x) = generator.cleanCodeBlock x ∧
        regexp.matchFence generator.closing1 (generator.cleanCodeBlock x) = none ∧
        regexp.matchFence generator.closing2 (generator.cleanCodeBlock x) = none)) ∧
    (generator.cleanCodeBlock x = strings.TrimSpace x →
      generator.cleanCodeBlock (generator.cleanCodeBlock x) = generator.cleanCodeBlock x) ∧
    (¬ (strings.HasPrefix (strings.TrimSpace x) "```".toList = true ∧
        strings.HasSuffix (strings.TrimSpace x) "```".toList = true) →
      generator.cleanCodeBlock (generator.cleanCodeBlock x) = generator.cleanCodeBlock x) ∧
    (strings.TrimSpace (generator.cleanCodeBlock x) = generator.cleanCodeBlock x →
      ¬ (strings.HasPrefix (generator.cleanCodeBlock x) "```".toList = true ∧
         strings.HasSuffix (generator.cleanCodeBlock x) "```".toList = true) →
      generator.cleanCodeBlock (generator.cleanCodeBlock x) = generator.cleanCodeBlock x) := by
  have key : generator.cleanCodeBlock x = strings.TrimSpace x →
      generator.cleanCodeBlock (generator.cleanCodeBlock x) = generator.cleanCodeBlock x := by
    intro h
    rw [h, generator.cleanCodeBlock_trim, h]
  refine ⟨generator.cleanCodeBlock_fixed_iff _, key,
    fun h => key (generator.cleanCodeBlock_no_fence x h), ?_⟩
  intro ht hfree
  have h := generator.cleanCodeBlock_no_fence (generator.cleanCodeBlock x) (by rw [ht]; exact hfree)
  rw [h, ht]

/-- C6, amended, at the fenced input of the repository's test and at an
unfenced text with white space at its ends. -/
theorem C6_idempotent_iff_result_clean_witness :
    generator.cleanCodeBlock (generator.cleanCodeBlock "```go\npackage main\n```".toList)
      = generator.cleanCodeBlock "```go\npackage main\n```".toList ∧
    generator.cleanCodeBlock (generator.cleanCodeBlock " package main\n".toList)
      = generator.cleanCodeBlock " package main\n".toList :=
  ⟨(C6_idempotent_iff_result_clean "```go\npackage main\n```".toList).2.2.2
      (by decide) (by decide),
   (C6_idempotent_iff_result_clean " package main\n".toList).2.2.1 (by decide)⟩

/-- C7, the claim as stated fails: when the interior ends in a newline, the
layout with the fence on its own line keeps that newline and the other layout
loses it. -/
theorem C7_layouts_counterexample :
    generator.cleanCodeBlock ("```go\n".toList ++ "x\n".toList ++ "\n```".toList)
      ≠ generator.cleanCodeBlock ("```go\n".toList ++ "x\n".toList ++ "```".toList) := by
  decide

/-- C7, amended: for every interior text `B` that does not end in a newline
and each opening fence, `cleanCodeBlock` yields the same result whether the
closing fence is on its own line or directly follows the content. -/
theorem C7_layouts_no_final_newline (B : Str) (hB : B.getLast? ≠ some '\n') :
    generator.cleanCodeBlock ("```go\n".toList ++ B ++ "\n```".toList)
      = generator.cleanCodeBlock ("```go\n".toList ++ B ++ "```".toList) ∧
    generator.cleanCodeBlock ("```\n".toList ++ B ++ "\n```".toList)
      = generator.cleanCodeBlock ("```\n".toList ++ B ++ "```".toList) :=
  generator.cleanCodeBlock_layouts B hB

/-- C7, amended, at a two-line interior. -/
theorem C7_layouts_no_final_newline_witness :
    generator.cleanCodeBlock ("```go\n".toList ++ "package main\n\nfunc main() {}".toList
        ++ "\n```".toList)
      = generator.cleanCodeBlock ("```go\n".toList ++ "package main\n\nfunc main() {}".toList
        ++ "```".toList) ∧
    generator.cleanCodeBlock ("```\n".toList ++ "package main\n\nfunc main() {}".toList
        ++ "\n```".toList)
      = generator.cleanCodeBlock ("```\n".toList ++ "package main\n\nfunc main() {}".toList
        ++ "```".toList) :=
  C7_layouts_no_final_newline "package main\n\nfunc main() {}".toList (by decide)

/-- C9, the claim as stated fails: with the tag `golang` the fence is not
stripped. -/
theorem C9_language_tag_counterexample :
    generator.cleanCodeBlock
        ("```".toList ++ "golang".toList ++ "\n".toList ++ "x".toList ++ "\n```".toList)
      ≠ "x".toList := by
  decide

/-- C9, amended: the opening fence may carry the tag `go` only. With the tag
`go` and a body `B` that begins with a non-whitespace character the result is
`B`; with any other non-empty tag free of white space (every alphanumeric tag,
for example `golang` or `Go`) the fence is not stripped and the input is
returned as it is. -/
theorem C9_language_tag_go_only (T B : Str) :
    (T = "go".toList → (∀ c, B.head? = some c → strings.isSpace c = false) →
      generator.cleanCodeBlock ("```".toList ++ T ++ "\n".toList ++ B ++ "\n```".toList) = B) ∧
    (T ≠ [] → T ≠ "go".toList → (∀ c ∈ T, strings.isSpace c = false) →
      generator.cleanCodeBlock ("```".toList ++ T ++ "\n".toList ++ B ++ "\n```".toList)
        = "```".toList ++ T ++ "\n".toList ++ B ++ "\n```".toList) := by
  constructor
  · intro hT hB
    subst hT
    exact (generator.cleanCodeBlock_fenced_body B hB).1
  · exact generator.cleanCodeBlock_other_tag T B

/-- C9, amended, at the tags `go` and `Go`. -/
theorem C9_language_tag_go_only_witness :
    generator.cleanCodeBlock
        ("```".toList ++ "go".toList ++ "\n".toList ++ "x := 1".toList ++ "\n```".toList)
      = "x := 1".toList ∧
    generator.cleanCodeBlock
        ("```".toList ++ "Go".toList ++ "\n".toList ++ "x := 1".toList ++ "\n```".toList)
      = "```".toList ++ "Go".toList ++ "\n".toList ++ "x := 1".toList ++ "\n```".toList :=
  ⟨(C9_language_tag_go_only "go".toList "x := 1".toList).1 rfl (by decide),
   (C9_language_tag_go_only "Go".toList "x := 1".toList).2 (by decide) (by decide) (by decide)⟩

/-! ## Lemmas on the classifier -/

namespace strings

theorem ToLower_of_fold (tbl : Char → Char) (s t : Str) (h : s.map Spec.asciiLower = t)
    (hascii : ∀ c ∈ t, c.toNat < 128) : ToLower tbl s = t := by
  rw [← h]
  unfold ToLower
  apply List.map_congr_left
  intro c hc
  have h1 : (Spec.asciiLower c).toNat < 128 :=
    hascii _ (by rw [← h]; exact List.mem_map_of_mem _ hc)
  have h2 : c.toNat < 128 := by
    by_contra hge
    have : Spec.asciiLower c = c := by
      unfold Spec.asciiLower
      rw [if_neg (by omega)]
    rw [this] at h1
    exact hge h1
  unfold lowerRune Spec.asciiLower
  rw [if_pos h2]

/-- With a case table that sends no code point outside ASCII to an ASCII
character other than `k` and `i` (as the Unicode tables do), lower-casing to
a text without `k` and `i` is the same as ASCII lower-casing. -/
theorem fold_of_ToLower (tbl : Char → Char)
    (htbl : ∀ c : Char, 128 ≤ c.toNat → 128 ≤ (tbl c).toNat ∨ tbl c = 'k' ∨ tbl c = 'i')
    (s t : Str) (h : ToLower tbl s = t)
    (ht : ∀ c ∈ t, c.toNat < 128 ∧ c ≠ 'k' ∧ c ≠ 'i') : s.map Spec.asciiLower = t := by
  rw [← h]
  unfold ToLower
  apply List.map_congr_left
  intro c hc
  have h1 := ht (lowerRune tbl c) (by rw [← h]; exact List.mem_map_of_mem _ hc)
  have h2 : c.toNat < 128 := by
    by_contra hge
    have hl : lowerRune tbl c = tbl c := by
      unfold lowerRune
      rw [if_neg hge]
    rw [hl] at h1
    rcases htbl c (by omega) with h3 | h3 | h3
    · omega
    · exact h1.2.1 h3
    · exact h1.2.2 h3
  unfold lowerRune Spec.asciiLower
  rw [if_pos h2]

/-- With such a case table, an extension that is none of the table's
extensions when ASCII case is ignored is not mapped by the code either. -/
theorem unmapped_of_fold (tbl : Char → Char)
    (htbl : ∀ c : Char, 128 ≤ c.toNat → 128 ≤ (tbl c).toNat ∨ tbl c = 'k' ∨ tbl c = 'i')
    (ext : Str) (h : ∀ e ∈ Spec.mappedExtensions, ¬ Spec.equalFoldASCII ext e) :
    ToLower tbl ext ∉ Spec.mappedExtensions := by
  intro hmem
  have hchars : ∀ e ∈ Spec.mappedExtensions,
      (∀ c ∈ e, c.toNat < 128 ∧ c ≠ 'k' ∧ c ≠ 'i') ∧ e.map Spec.asciiLower = e := by
    decide
  obtain ⟨h1, h2⟩ := hchars _ hmem
  apply h _ hmem
  unfold Spec.equalFoldASCII
  rw [h2]
  exact fold_of_ToLower tbl htbl ext _ rfl h1

/-- An extension that is one of the table's extensions when ASCII case is
ignored is mapped by the code, whatever the case table. -/
theorem mapped_of_fold (tbl : Char → Char) (ext e : Str) (he : e ∈ Spec.mappedExtensions)
    (h : Spec.equalFoldASCII ext e) : ToLower tbl ext = e := by
  have hchars : ∀ e ∈ Spec.mappedExtensions,
      (∀ c ∈ e, c.toNat < 128) ∧ e.map Spec.asciiLower = e := by
    decide
  obtain ⟨h1, h2⟩ := hchars _ he
  unfold Spec.equalFoldASCII at h
  rw [h2] at h
  exact ToLower_of_fold tbl ext e h h1

theorem Split_firstLine (content : Str) :
    ∃ rest, Split content '\n' = Spec.firstLine content :: rest := by
  induction content with
  | nil => exact ⟨[], rfl⟩
  | cons c cs ih =>
    obtain ⟨rest, hrest⟩ := ih
    unfold Split
    by_cases hc : c = '\n'
    · subst hc
      exact ⟨Split cs '\n', by simp [Spec.firstLine]⟩
    · refine ⟨rest, ?_⟩
      rw [if_neg hc, hrest]
      simp [Spec.firstLine, hc]

theorem Contains_iff_occurs (s sub : Str) : Contains s sub = true ↔ sub <:+: s := by
  induction s with
  | nil => simp [Contains, List.isEmpty_iff]
  | cons c cs ih =>
    unfold Contains
    rw [Bool.or_eq_true, ih, List.isPrefixOf_iff_prefix, List.infix_cons_iff]

theorem TrimSpace_within (l : Str) : TrimSpace l <:+: l :=
  (List.rdropWhile_prefix _ _).isInfix.trans (List.dropWhile_suffix _).isInfix

theorem infix_dropWhile (p : Char → Bool) (sub : Str) (hne : sub ≠ [])
    (hh : ∀ c, sub.head? = some c → p c = false) :
    ∀ l : Str, sub <:+: l → sub <:+: l.dropWhile p := by
  intro l
  induction l with
  | nil => intro h; exact h
  | cons a l1 ih =>
    intro h
    by_cases hpa : p a = true
    · rw [List.dropWhile_cons_of_pos hpa]
      rcases List.infix_cons_iff.mp h with hpre | hin
      · exfalso
        obtain ⟨t, ht⟩ := hpre
        cases sub with
        | nil => exact hne rfl
        | cons b sub1 =>
          simp at ht
          have := hh b rfl
          rw [ht.1, hpa] at this
          cases this
      · exact ih hin
    · rw [List.dropWhile_cons_of_neg hpa]
      exact h

theorem infix_rdropWhile (p : Char → Bool) (sub : Str) (hne : sub ≠ [])
    (hl : ∀ c, sub.getLast? = some c → p c = false) (l : Str) (h : sub <:+: l) :
    sub <:+: l.rdropWhile p := by
  have h1 : sub.reverse <:+: l.reverse := h.reverse
  have h2 := infix_dropWhile p sub.reverse (by simpa using hne)
    (by intro c hc; rw [List.head?_reverse] at hc; exact hl c hc) l.reverse h1
  have h3 := h2.reverse
  simpa [List.rdropWhile] using h3

/-- Trimming does not change whether a text without white space at its ends
occurs in a line. -/
theorem Contains_TrimSpace (l sub : Str) (hne : sub ≠ [])
    (hh : ∀ c, sub.head? = some c → isSpace c = false)
    (hl : ∀ c, sub.getLast? = some c → isSpace c = false) :
    Contains (TrimSpace l) sub = Contains l sub := by
  apply Bool.eq_iff_iff.mpr
  rw [Contains_iff_occurs, Contains_iff_occurs]
  constructor
  · intro h
    exact h.trans (TrimSpace_within l)
  · intro h
    exact infix_rdropWhile _ sub hne hl _ (infix_dropWhile _ sub hne hh _ h)

/-- A line that begins with the marker still begins with it after trimming. -/
theorem HasPrefix_marker_TrimSpace (l : Str) (h : HasPrefix l "#!".toList = true) :
    HasPrefix (TrimSpace l) "#!".toList = true := by
  unfold HasPrefix at h ⊢
  rw [List.isPrefixOf_iff_prefix] at h ⊢
  obtain ⟨r, hr⟩ := h
  have hm : "#!".toList = ['#', '!'] := rfl
  rw [hm] at hr ⊢
  subst hr
  unfold TrimSpace
  have h1 : List.dropWhile isSpace (['#', '!'] ++ r) = ['#', '!'] ++ r := by
    simp [List.dropWhile, show isSpace '#' = false by decide]
  rw [h1]
  unfold List.rdropWhile
  rw [List.reverse_append, List.dropWhile_append]
  have h2 : List.dropWhile isSpace (['#', '!'] : Str).reverse = ['!', '#'] := by
    simp [List.dropWhile, show isSpace '!' = false by decide]
  split
  · rw [h2]; simp
  · simp

end strings

namespace parser

/-- With an extension outside the table, the classification is decided by the
trimmed first line alone. -/
theorem detectScriptType_unmapped (tbl : Char → Char) (filePath content : Str)
    (hext : strings.ToLower tbl (filepath.Ext filePath) ∉ Spec.mappedExtensions) :
    detectScriptType tbl filePath content =
      (if strings.HasPrefix (strings.TrimSpace (Spec.firstLine content)) "#!".toList then
        if strings.Contains (strings.TrimSpace (Spec.firstLine content)) "python".toList then
          ScriptTypePython
        else if strings.Contains (strings.TrimSpace (Spec.firstLine content)) "bash".toList
            || strings.Contains (strings.TrimSpace (Spec.firstLine content)) "sh".toList
            || strings.Contains (strings.TrimSpace (Spec.firstLine content)) "zsh".toList then
          ScriptTypeShell
        else ScriptTypeUnknown
      else ScriptTypeUnknown) := by
  simp only [Spec.mappedExtensions, List.mem_cons, List.mem_singleton, List.not_mem_nil,
    or_false, not_or] at hext
  obtain ⟨h1, h2, h3, h4⟩ := hext
  obtain ⟨rest, hrest⟩ := strings.Split_firstLine content
  unfold detectScriptType
  simp only [h1, h2, h3, h4, hrest, if_false, or_self]

theorem detectScriptType_py (tbl : Char → Char) (filePath content : Str)
    (hext : strings.ToLower tbl (filepath.Ext filePath) = ".py".toList) :
    detectScriptType tbl filePath content = ScriptTypePython := by
  unfold detectScriptType
  simp only [hext, if_true]

theorem detectScriptType_sh (tbl : Char → Char) (filePath content : Str)
    (hext : strings.ToLower tbl (filepath.Ext filePath) = ".sh".toList ∨
      strings.ToLower tbl (filepath.Ext filePath) = ".bash".toList ∨
      strings.ToLower tbl (filepath.Ext filePath) = ".zsh".toList) :
    detectScriptType tbl filePath content = ScriptTypeShell := by
  have hne : strings.ToLower tbl (filepath.Ext filePath) ≠ ".py".toList := by
    rcases hext with h | h | h <;> rw [h] <;> decide
  unfold detectScriptType
  simp only [hne, hext, if_false, if_true]

end parser

/-! ## Claims on the classifier -/

/-- C2: for every path whose extension, compared ignoring ASCII case, is
`.py`, and every content, `detectScriptType` returns python; for every path
whose extension is `.sh`, `.bash` or `.zsh`, and every content, it returns
shell. The content plays no part. -/
theorem C2_detectScriptType_by_extension (tbl : Char → Char) (filePath content : Str) :
    (Spec.equalFoldASCII (filepath.Ext filePath) ".py".toList →
      parser.detectScriptType tbl filePath content = parser.ScriptTypePython) ∧
    (Spec.equalFoldASCII (filepath.Ext filePath) ".sh".toList ∨
     Spec.equalFoldASCII (filepath.Ext filePath) ".bash".toList ∨
     Spec.equalFoldASCII (filepath.Ext filePath) ".zsh".toList →
      parser.detectScriptType tbl filePath content = parser.ScriptTypeShell) := by
  constructor
  · intro h
    exact parser.detectScriptType_py tbl filePath content
      (strings.ToLower_of_fold tbl _ _ h (by decide))
  · intro h
    apply parser.detectScriptType_sh
    rcases h with h | h | h
    · exact Or.inl (strings.ToLower_of_fold tbl _ _ h (by decide))
    · exact Or.inr (Or.inl (strings.ToLower_of_fold tbl _ _ h (by decide)))
    · exact Or.inr (Or.inr (strings.ToLower_of_fold tbl _ _ h (by decide)))

/-- C2 at an upper-case `.PY` file with a shell shebang and at a `.Zsh` file
with a python shebang. -/
theorem C2_detectScriptType_by_extension_witness :
    parser.detectScriptType id "dir.sh/Tool.PY".toList "#!/bin/bash\necho hi\n".toList
      = parser.ScriptTypePython ∧
    parser.detectScriptType id "run.Zsh".toList "#!/usr/bin/python3\n".toList
      = parser.ScriptTypeShell :=
  ⟨(C2_detectScriptType_by_extension id "dir.sh/Tool.PY".toList
      "#!/bin/bash\necho hi\n".toList).1 (by decide),
   (C2_detectScriptType_by_extension id "run.Zsh".toList
      "#!/usr/bin/python3\n".toList).2 (by decide)⟩

/-- C3, the claim as stated fails: the first line below begins with the
marker and contains `sh` (inside `josh`), yet the file is classified python,
because the test for `python` comes first. -/
theorem C3_shebang_counterexample :
    strings.ToLower id (filepath.Ext "script".toList) ∉ Spec.mappedExtensions ∧
    strings.HasPrefix (Spec.firstLine "#!/home/josh/bin/python3\nprint(1)\n".toList)
      "#!".toList = true ∧
    strings.Contains (Spec.firstLine "#!/home/josh/bin/python3\nprint(1)\n".toList)
      "sh".toList = true ∧
    parser.detectScriptType id "script".toList "#!/home/josh/bin/python3\nprint(1)\n".toList
      ≠ parser.ScriptTypeShell := by
  decide

/-- C3, amended: for every path whose (lower-cased) extension is not one of
`.py`, `.sh`, `.bash`, `.zsh` and every content whose first line begins with
`#!`: if the first line contains `python` the result is python, and if it
does not contain `python` and contains `bash`, `sh` or `zsh` the result is
shell. -/
theorem C3_shebang_python_first (tbl : Char → Char) (filePath content : Str)
    (hext : strings.ToLower tbl (filepath.Ext filePath) ∉ Spec.mappedExtensions)
    (hmark : strings.HasPrefix (Spec.firstLine content) "#!".toList = true) :
    (strings.Contains (Spec.firstLine content) "python".toList = true →
      parser.detectScriptType tbl filePath content = parser.ScriptTypePython) ∧
    (strings.Contains (Spec.firstLine content) "python".toList = false →
      (strings.Contains (Spec.firstLine content) "bash".toList = true ∨
       strings.Contains (Spec.firstLine content) "sh".toList = true ∨
       strings.Contains (Spec.firstLine content) "zsh".toList = true) →
      parser.detectScriptType tbl filePath content = parser.ScriptTypeShell) := by
  rw [parser.detectScriptType_unmapped tbl filePath content hext,
    strings.HasPrefix_marker_TrimSpace _ hmark,
    strings.Contains_TrimSpace _ "python".toList (by decide) (by decide) (by decide),
    strings.Contains_TrimSpace _ "bash".toList (by decide) (by decide) (by decide),
    strings.Contains_TrimSpace _ "sh".toList (by decide) (by decide) (by decide),
    strings.Contains_TrimSpace _ "zsh".toList (by decide) (by decide) (by decide)]
  constructor
  · intro hpy
    rw [if_pos rfl, if_pos hpy]
  · intro hpy hsh
    rw [if_pos rfl, if_neg (by rw [hpy]; exact Bool.false_ne_true), if_pos]
    rw [Bool.or_eq_true, Bool.or_eq_true]
    rcases hsh with h | h | h
    · exact Or.inl (Or.inl h)
    · exact Or.inl (Or.inr h)
    · exact Or.inr h

/-- C3, amended, at the content of the repository's shebang test and at a
shell script without extension. -/
theorem C3_shebang_python_first_witness :
    parser.detectScriptType id "/tmp/script".toList "#!/usr/bin/python3\nprint(\"test\")\n".toList
      = parser.ScriptTypePython ∧
    parser.detectScriptType id "/tmp/deploy".toList "#!/bin/zsh\necho hi\n".toList
      = parser.ScriptTypeShell :=
  ⟨(C3_shebang_python_first id "/tmp/script".toList "#!/usr/bin/python3\nprint(\"test\")\n".toList
      (by decide) (by decide)).1 (by decide),
   (C3_shebang_python_first id "/tmp/deploy".toList "#!/bin/zsh\necho hi\n".toList
      (by decide) (by decide)).2 (by decide) (by decide)⟩

/-- C4, the claim as stated fails: the extension `.PY` is not one of `.py`,
`.sh`, `.bash`, `.zsh` as written, and the first line `hello` carries no
directive, yet the file is classified python, because the extension is
lower-cased before it is looked up. -/
theorem C4_extension_case_counterexample :
    filepath.Ext "x.PY".toList ∉ Spec.mappedExtensions ∧
    ¬ (strings.HasPrefix (strings.TrimSpace (Spec.firstLine "hello".toList)) "#!".toList = true ∧
       (strings.Contains (strings.TrimSpace (Spec.firstLine "hello".toList)) "python".toList = true ∨
        strings.Contains (strings.TrimSpace (Spec.firstLine "hello".toList)) "bash".toList = true ∨
        strings.Contains (strings.TrimSpace (Spec.firstLine "hello".toList)) "sh".toList = true ∨
        strings.Contains (strings.TrimSpace (Spec.firstLine "hello".toList)) "zsh".toList = true)) ∧
    parser.detectScriptType id "x.PY".toList "hello".toList = parser.ScriptTypePython ∧
    parser.detectScriptType id "x.PY".toList "hello".toList ≠ parser.ScriptTypeUnknown := by
  decide

/-- C4, amended: `detectScriptType` always returns one of python, shell,
unknown; and for every path whose lower-cased extension is not one of `.py`,
`.sh`, `.bash`, `.zsh` and every content whose trimmed first line does not
both begin with `#!` and contain one of `python`, `bash`, `sh`, `zsh`, it
returns unknown. -/
theorem C4_detectScriptType_unknown (tbl : Char → Char) (filePath content : Str) :
    (parser.detectScriptType tbl filePath content = parser.ScriptTypePython ∨
     parser.detectScriptType tbl filePath content = parser.ScriptTypeShell ∨
     parser.detectScriptType tbl filePath content = parser.ScriptTypeUnknown) ∧
    (strings.ToLower tbl (filepath.Ext filePath) ∉ Spec.mappedExtensions →
     ¬ (strings.HasPrefix (strings.TrimSpace (Spec.firstLine content)) "#!".toList = true ∧
        (strings.Contains (strings.TrimSpace (Spec.firstLine content)) "python".toList = true ∨
         strings.Contains (strings.TrimSpace (Spec.firstLine content)) "bash".toList = true ∨
         strings.Contains (strings.TrimSpace (Spec.firstLine content)) "sh".toList = true ∨
         strings.Contains (strings.TrimSpace (Spec.firstLine content)) "zsh".toList = true)) →
     parser.detectScriptType tbl filePath content = parser.ScriptTypeUnknown) := by
  constructor
  · by_cases hext : strings.ToLower tbl (filepath.Ext filePath) ∈ Spec.mappedExtensions
    · simp only [Spec.mappedExtensions, List.mem_cons, List.mem_singleton, List.not_mem_nil,
        or_false] at hext
      rcases hext with h | h
      · exact Or.inl (parser.detectScriptType_py tbl filePath content h)
      · exact Or.inr (Or.inl (parser.detectScriptType_sh tbl filePath content h))
    · rw [parser.detectScriptType_unmapped tbl filePath content hext]
      split
      · split
        · exact Or.inl rfl
        · split
          · exact Or.inr (Or.inl rfl)
          · exact Or.inr (Or.inr rfl)
      · exact Or.inr (Or.inr rfl)
  · intro hext hno
    rw [parser.detectScriptType_unmapped tbl filePath content hext]
    by_cases hp : strings.HasPrefix (strings.TrimSpace (Spec.firstLine content)) "#!".toList = true
    · rw [if_pos hp]
      rw [if_neg (fun h => hno ⟨hp, Or.inl h⟩), if_neg]
      rw [Bool.or_eq_true, Bool.or_eq_true]
      rintro ((h | h) | h)
      · exact hno ⟨hp, Or.inr (Or.inl h)⟩
      · exact hno ⟨hp, Or.inr (Or.inr (Or.inl h))⟩
      · exact hno ⟨hp, Or.inr (Or.inr (Or.inr h))⟩
    · rw [if_neg hp]

/-- C4, amended, at a text file whose shebang is not on the first line. -/
theorem C4_detectScriptType_unknown_witness :
    parser.detectScriptType id "notes.txt".toList "hello\n#!/bin/sh\n".toList
      = parser.ScriptTypeUnknown :=
  (C4_detectScriptType_unknown id "notes.txt".toList "hello\n#!/bin/sh\n".toList).2
    (by decide) (by decide)

/-! ## Claims on `Generate` and `Transpile` -/

/-- C10: when directory creation and the file write succeed, `Generate` never
fails because of formatting. If the formatter rejects `cleanCodeBlock x`,
`Generate` succeeds, the text written to the output path is exactly
`cleanCodeBlock x` and the returned `GoCode` is that text; if the formatter
accepts, the written text and the returned `GoCode` are the formatter's
output. -/
theorem C10_Generate_format_fallback (env : Env) (x outputPath : Str) (tr : List Event)
    (hmk : env.mkdirAll (filepath.Dir outputPath) = none) :
    (∀ e, env.formatSource (generator.cleanCodeBlock x) = .error e →
      env.writeFile outputPath (generator.cleanCodeBlock x) = none →
      generator.Generate env x outputPath tr =
        (.ok { GoCode := generator.cleanCodeBlock x, OutputPath := outputPath, BinaryPath := [] },
         tr ++ [Event.mkdirAll (filepath.Dir outputPath)] ++
           [Event.writeFile outputPath (generator.cleanCodeBlock x)])) ∧
    (∀ f, env.formatSource (generator.cleanCodeBlock x) = .ok f →
      env.writeFile outputPath f = none →
      generator.Generate env x outputPath tr =
        (.ok { GoCode := f, OutputPath := outputPath, BinaryPath := [] },
         tr ++ [Event.mkdirAll (filepath.Dir outputPath)] ++
           [Event.writeFile outputPath f])) := by
  constructor
  · intro e hfmt hwr
    unfold generator.Generate
    simp only [hfmt, hmk, hwr]
  · intro f hfmt hwr
    unfold generator.Generate
    simp only [hfmt, hmk, hwr]

/-- C10 in the sample environment: a fenced text that the formatter rejects
is written without its fence, and a fenced text that the formatter accepts is
written as formatted. -/
theorem C10_Generate_format_fallback_witness :
    generator.Generate sampleEnv "```go\nx := 1\n```".toList "out/main.go".toList [] =
      (.ok { GoCode := "x := 1".toList, OutputPath := "out/main.go".toList,
             BinaryPath := [] },
       [Event.mkdirAll "out".toList,
        Event.writeFile "out/main.go".toList "x := 1".toList]) ∧
    generator.Generate sampleEnv "```go\npackage main\n```".toList "out/main.go".toList [] =
      (.ok { GoCode := "package main\n".toList, OutputPath := "out/main.go".toList,
             BinaryPath := [] },
       [Event.mkdirAll "out".toList,
        Event.writeFile "out/main.go".toList "package main\n".toList]) :=
  ⟨(C10_Generate_format_fallback sampleEnv "```go\nx := 1\n```".toList
      "out/main.go".toList [] rfl).1 "expected 'package'".toList rfl rfl,
   (C10_Generate_format_fallback sampleEnv "```go\npackage main\n```".toList
      "out/main.go".toList [] rfl).2 "package main\n".toList rfl rfl⟩

/-- C1: a path that does not exist or is a directory makes `Parse` fail; and
whenever `Parse` fails, or the parsed input is classified neither python nor
shell, `Transpile` returns an error and no result, and the trace of outside
calls is the one it started with: no call of the client's `Generate`, no
directory created, no file written, no toolchain run. -/
theorem C1_Transpile_fails_before_generation (env : Env) (opts : handler.TranspileOptions)
    (tr : List Event) :
    (((∃ e, env.stat opts.InputPath = StatResult.notExist e) ∨
        env.stat opts.InputPath = StatResult.dir) →
      ∃ e, parser.Parse env opts.InputPath = .error e) ∧
    (((∃ e, parser.Parse env opts.InputPath = .error e) ∨
      (∃ p, parser.Parse env opts.InputPath = .ok p ∧
        p.ScriptType ≠ parser.ScriptTypePython ∧ p.ScriptType ≠ parser.ScriptTypeShell)) →
      ∃ msg, handler.Transpile env opts tr = (.error msg, tr)) := by
  constructor
  · rintro (⟨e, h⟩ | h)
    · exact ⟨_, by unfold parser.Parse; rw [h]⟩
    · exact ⟨_, by unfold parser.Parse; rw [h]⟩
  · rintro (⟨e, h⟩ | ⟨p, h, hpy, hsh⟩)
    · exact ⟨_, by unfold handler.Transpile; rw [h]⟩
    · have hsup : parser.IsSupportedType p.ScriptType = false := by
        unfold parser.IsSupportedType
        simp [hpy, hsh]
      exact ⟨_, by unfold handler.Transpile; rw [h]; simp only [hsup]; rfl⟩

/-- C1 in the sample environment: the missing path of the repository's test,
a directory, and a text file of unknown type, each started with an empty
trace. -/
theorem C1_Transpile_fails_before_generation_witness :
    (∃ e, parser.Parse sampleEnv "/nonexistent/file.py".toList = .error e) ∧
    (∃ msg, handler.Transpile sampleEnv
      { InputPath := "/nonexistent/file.py".toList, OutputPath := [], Build := true,
        BinaryPath := [] } [] = (.error msg, [])) ∧
    (∃ msg, handler.Transpile sampleEnv
      { InputPath := "/tmp".toList, OutputPath := [], Build := false,
        BinaryPath := [] } [] = (.error msg, [])) ∧
    (∃ msg, handler.Transpile sampleEnv
      { InputPath := "notes.txt".toList, OutputPath := [], Build := false,
        BinaryPath := [] } [] = (.error msg, [])) :=
  ⟨(C1_Transpile_fails_before_generation sampleEnv
      { InputPath := "/nonexistent/file.py".toList, OutputPath := [], Build := true,
        BinaryPath := [] } []).1 (Or.inl ⟨_, rfl⟩),
   (C1_Transpile_fails_before_generation sampleEnv
      { InputPath := "/nonexistent/file.py".toList, OutputPath := [], Build := true,
        BinaryPath := [] } []).2 (Or.inl ⟨_, rfl⟩),
   (C1_Transpile_fails_before_generation sampleEnv
      { InputPath := "/tmp".toList, OutputPath := [], Build := false,
        BinaryPath := [] } []).2 (Or.inl ⟨_, rfl⟩),
   (C1_Transpile_fails_before_generation sampleEnv
      { InputPath := "notes.txt".toList, OutputPath := [], Build := false,
        BinaryPath := [] } []).2 (Or.inr ⟨_, rfl, by decide, by decide⟩)⟩

/-! ## Claims on the generation clients -/

namespace llm

/-- Once the transport is passed, `GeminiClient.Generate` is decided by the
decoded response. -/
theorem GeminiClient.Generate_of_geminiRun (t : Transport) (c : GeminiClient) (prompt : Str)
    (resp : HTTPResponse) (r : GeminiResponse) (h : Spec.geminiRun t c prompt resp r) :
    c.Generate t prompt =
      (match r.Error with
       | some apiErr =>
         .error ("API error [".toList ++ fmtInt apiErr.Code ++ "]: ".toList ++ apiErr.Message)
       | none =>
         match r.Candidates with
         | [] => .error "empty response from Gemini API".toList
         | candidate :: _ =>
           match candidate.Content.Parts with
           | [] => .error "empty response from Gemini API".toList
           | part :: _ => .ok part.Text) := by
  obtain ⟨jsonBody, body, h1, h2, h3, h4, h5⟩ := h
  unfold GeminiClient.Generate
  simp only [h1, h2, h3, h4, h5]

/-- Once the transport is passed, `OpenAIClient.Generate` is decided by the
decoded response. -/
theorem OpenAIClient.Generate_of_openAIRun (t : Transport) (c : OpenAIClient) (prompt : Str)
    (resp : HTTPResponse) (r : OpenAIChatResponse) (h : Spec.openAIRun t c prompt resp r) :
    c.Generate t prompt =
      (match r.Error with
       | some apiErr =>
         .error ("API error [".toList ++ apiErr.Typ ++ "]: ".toList ++ apiErr.Message)
       | none =>
         match r.Choices with
         | [] => .error "empty response from OpenAI API".toList
         | choice :: _ => .ok choice.Message.Content) := by
  obtain ⟨jsonBody, body, h1, h2, h3, h4, h5⟩ := h
  unfold OpenAIClient.Generate
  simp only [h1, h2, h3, h4, h5]

/-- Once the transport is passed, `ClaudeClient.Generate` is decided by the
decoded response. -/
theorem ClaudeClient.Generate_of_claudeRun (t : Transport) (c : ClaudeClient) (prompt : Str)
    (resp : HTTPResponse) (r : ClaudeResponse) (h : Spec.claudeRun t c prompt resp r) :
    c.Generate t prompt =
      (match r.Error with
       | some apiErr =>
         .error ("API error [".toList ++ apiErr.Typ ++ "]: ".toList ++ apiErr.Message)
       | none =>
         if r.Content.length = 0 then .error "empty response from Claude API".toList
         else if firstText r.Content = [] then
           .error "no text content in Claude API response".toList
         else .ok (firstText r.Content)) := by
  obtain ⟨jsonBody, body, h1, h2, h3, h4, h5⟩ := h
  unfold ClaudeClient.Generate
  simp only [h1, h2, h3, h4, h5]

theorem firstText_no_text (blocks : List ClaudeContentBlock)
    (h : ∀ b ∈ blocks, b.Typ ≠ "text".toList) : firstText blocks = [] := by
  induction blocks with
  | nil => rfl
  | cons b rest ih =>
    unfold firstText
    rw [if_neg (h b (by simp))]
    exact ih (fun b1 hb1 => h b1 (by simp [hb1]))

end llm

/-- C11: for each of the three provider variants, when the run of `Generate`
decodes a response that carries no error object and whose payload list is
empty (Gemini: no candidates, or a first candidate without parts; OpenAI: no
choices; Claude: no content blocks, or no block of type `text`), `Generate`
returns an error and not a text. -/
theorem C11_empty_payload_is_error (t : llm.Transport) (prompt : Str) :
    (∀ (c : llm.GeminiClient) resp r, Spec.geminiRun t c prompt resp r → r.Error = none →
      (r.Candidates = [] ∨ ∃ candidate rest, r.Candidates = candidate :: rest ∧
        candidate.Content.Parts = []) →
      ∃ e, c.Generate t prompt = .error e) ∧
    (∀ (c : llm.OpenAIClient) resp r, Spec.openAIRun t c prompt resp r → r.Error = none →
      r.Choices = [] →
      ∃ e, c.Generate t prompt = .error e) ∧
    (∀ (c : llm.ClaudeClient) resp r, Spec.claudeRun t c prompt resp r → r.Error = none →
      (r.Content = [] ∨ ∀ b ∈ r.Content, b.Typ ≠ "text".toList) →
      ∃ e, c.Generate t prompt = .error e) := by
  refine ⟨?_, ?_, ?_⟩
  · intro c resp r hrun herr hempty
    rw [llm.GeminiClient.Generate_of_geminiRun t c prompt resp r hrun, herr]
    rcases hempty with h | ⟨candidate, rest, h, hp⟩
    · rw [h]; exact ⟨_, rfl⟩
    · rw [h]; simp only [hp]; exact ⟨_, rfl⟩
  · intro c resp r hrun herr hempty
    rw [llm.OpenAIClient.Generate_of_openAIRun t c prompt resp r hrun, herr, hempty]
    exact ⟨_, rfl⟩
  · intro c resp r hrun herr hempty
    rw [llm.ClaudeClient.Generate_of_claudeRun t c prompt resp r hrun, herr]
    rcases hempty with h | h
    · rw [h]; exact ⟨_, rfl⟩
    · simp only [llm.firstText_no_text r.Content h]
      split <;> exact ⟨_, rfl⟩

/-- C11 in the sample network: a Gemini response whose first candidate has no
parts, an OpenAI response without choices, a Claude response with a single
block that is not of type `text`. -/
theorem C11_empty_payload_is_error_witness :
    (∃ e, (llm.NewGeminiClient "key".toList).Generate
      (sampleTransport 200 { Candidates := [{ Content := { Parts := [] } }], Error := none }
        emptyOpenAI emptyClaude)
      "prompt".toList = .error e) ∧
    (∃ e, (llm.NewOpenAIClient "key".toList).Generate
      (sampleTransport 200 emptyGemini emptyOpenAI emptyClaude)
      "prompt".toList = .error e) ∧
    (∃ e, (llm.NewClaudeClient "key".toList).Generate
      (sampleTransport 200 emptyGemini emptyOpenAI
        { ID := [], Typ := [], Content := [{ Typ := "tool_use".toList, Text := [] }],
          Error := none })
      "prompt".toList = .error e) :=
  ⟨(C11_empty_payload_is_error _ "prompt".toList).1 _ _ _
      ⟨_, _, rfl, rfl, rfl, rfl, rfl⟩ rfl (Or.inr ⟨_, _, rfl, rfl⟩),
   (C11_empty_payload_is_error _ "prompt".toList).2.1 _ _ _
      ⟨_, _, rfl, rfl, rfl, rfl, rfl⟩ rfl rfl,
   (C11_empty_payload_is_error _ "prompt".toList).2.2 _ _ _
      ⟨_, _, rfl, rfl, rfl, rfl, rfl⟩ rfl (Or.inr (by decide))⟩

namespace strings

theorem Contains_append_mid (a b c : Str) : Contains (a ++ b ++ c) b = true :=
  (Contains_iff_occurs _ _).mpr ⟨a, c, rfl⟩

theorem Contains_append_right (a b : Str) : Contains (a ++ b) b = true :=
  (Contains_iff_occurs _ _).mpr ⟨a, [], by simp⟩

end strings

namespace llm

/-- A success of `ClaudeClient.Generate` never carries the empty string. -/
theorem ClaudeClient.Generate_ok_ne_nil (t : Transport) (c : ClaudeClient) (prompt text : Str)
    (h : c.Generate t prompt = .ok text) : text ≠ [] := by
  unfold ClaudeClient.Generate at h
  split at h
  · cases h
  · split at h
    · cases h
    · split at h
      · cases h
      · split at h
        · cases h
        · split at h
          · cases h
          · split at h
            · cases h
            · split at h
              · cases h
              · simp only at h
                split at h
                · cases h
                · rename_i hne
                  cases h
                  exact hne

end llm

/-- C12, the code at the failing inputs: a Gemini response whose first part
has an empty text, and an OpenAI response whose first choice has an empty
content, both without error object, are returned as the success `""`. -/
theorem C12_empty_text_returned_as_success :
    (llm.NewGeminiClient "key".toList).Generate
      (sampleTransport 200
        { Candidates := [{ Content := { Parts := [{ Text := [] }] } }], Error := none }
        emptyOpenAI emptyClaude)
      "prompt".toList = .ok [] ∧
    (llm.NewOpenAIClient "key".toList).Generate
      (sampleTransport 200
        emptyGemini
        { ID := "chatcmpl-1".toList,
          Choices := [{ Message := { Role := "assistant".toList, Content := [] },
                        FinishReason := "stop".toList }],
          Error := none }
        emptyClaude)
      "prompt".toList = .ok [] :=
  ⟨rfl, rfl⟩

/-- C13, the claim as stated fails: no variant looks at the status code. A
response with status 500 whose body decodes to a candidate with text and no
error object is returned as a success. -/
theorem C13_status_counterexample :
    Spec.non2xx 500 ∧
    Spec.geminiRun
      (sampleTransport 500
        { Candidates := [{ Content := { Parts := [{ Text := "package main".toList }] } }],
          Error := none }
        emptyOpenAI emptyClaude)
      (llm.NewGeminiClient "key".toList) "prompt".toList
      { StatusCode := 500, Body := "response".toList }
      { Candidates := [{ Content := { Parts := [{ Text := "package main".toList }] } }],
        Error := none } ∧
    (llm.NewGeminiClient "key".toList).Generate
      (sampleTransport 500
        { Candidates := [{ Content := { Parts := [{ Text := "package main".toList }] } }],
          Error := none }
        emptyOpenAI emptyClaude)
      "prompt".toList = .ok "package main".toList :=
  ⟨Or.inr (by decide), ⟨_, _, rfl, rfl, rfl, rfl, rfl⟩, rfl⟩

/-- C13, amended: for each of the three provider variants and every response,
whatever its status code, whose body decodes to a response carrying an error
object (whatever payload accompanies it), `Generate` returns an error and not
a text, and the error message contains the provider's own message. The status
code is not inspected: a response of any status whose body decodes to a
response without error object and with a payload is returned as success
(Gemini: the text of the first part of the first candidate; OpenAI: the
content of the first choice; Claude: the text of the first block of type
`text`, when that text is not empty); and two runs that decode the same
response have the same outcome, whatever their status codes. -/
theorem C13_error_object_is_error (t : llm.Transport) (prompt : Str) :
    (∀ (c : llm.GeminiClient) resp r apiErr, Spec.geminiRun t c prompt resp r →
      r.Error = some apiErr →
      ∃ e, c.Generate t prompt = .error e ∧ strings.Contains e apiErr.Message = true) ∧
    (∀ (c : llm.OpenAIClient) resp r apiErr, Spec.openAIRun t c prompt resp r →
      r.Error = some apiErr →
      ∃ e, c.Generate t prompt = .error e ∧ strings.Contains e apiErr.Message = true) ∧
    (∀ (c : llm.ClaudeClient) resp r apiErr, Spec.claudeRun t c prompt resp r →
      r.Error = some apiErr →
      ∃ e, c.Generate t prompt = .error e ∧ strings.Contains e apiErr.Message = true) ∧
    (∀ (c : llm.GeminiClient) resp r candidate rest part parts,
      Spec.geminiRun t c prompt resp r → r.Error = none →
      r.Candidates = candidate :: rest → candidate.Content.Parts = part :: parts →
      c.Generate t prompt = .ok part.Text) ∧
    (∀ (c : llm.OpenAIClient) resp r choice rest,
      Spec.openAIRun t c prompt resp r → r.Error = none → r.Choices = choice :: rest →
      c.Generate t prompt = .ok choice.Message.Content) ∧
    (∀ (c : llm.ClaudeClient) resp r,
      Spec.claudeRun t c prompt resp r → r.Error = none → r.Content ≠ [] →
      llm.firstText r.Content ≠ [] →
      c.Generate t prompt = .ok (llm.firstText r.Content)) ∧
    (∀ (t2 : llm.Transport) (prompt2 : Str) (c c2 : llm.GeminiClient) resp resp2 r,
      Spec.geminiRun t c prompt resp r → Spec.geminiRun t2 c2 prompt2 resp2 r →
      c.Generate t prompt = c2.Generate t2 prompt2) ∧
    (∀ (t2 : llm.Transport) (prompt2 : Str) (c c2 : llm.OpenAIClient) resp resp2 r,
      Spec.openAIRun t c prompt resp r → Spec.openAIRun t2 c2 prompt2 resp2 r →
      c.Generate t prompt = c2.Generate t2 prompt2) ∧
    (∀ (t2 : llm.Transport) (prompt2 : Str) (c c2 : llm.ClaudeClient) resp resp2 r,
      Spec.claudeRun t c prompt resp r → Spec.claudeRun t2 c2 prompt2 resp2 r →
      c.Generate t prompt = c2.Generate t2 prompt2) := by
  refine ⟨?_, ?_, ?_, ?_, ?_, ?_, ?_, ?_, ?_⟩
  · intro c resp r apiErr hrun herr
    rw [llm.GeminiClient.Generate_of_geminiRun t c prompt resp r hrun, herr]
    exact ⟨_, rfl, strings.Contains_append_right _ _⟩
  · intro c resp r apiErr hrun herr
    rw [llm.OpenAIClient.Generate_of_openAIRun t c prompt resp r hrun, herr]
    exact ⟨_, rfl, strings.Contains_append_right _ _⟩
  · intro c resp r apiErr hrun herr
    rw [llm.ClaudeClient.Generate_of_claudeRun t c prompt resp r hrun, herr]
    exact ⟨_, rfl, strings.Contains_append_right _ _⟩
  · intro c resp r candidate rest part parts hrun herr hc hp
    rw [llm.GeminiClient.Generate_of_geminiRun t c prompt resp r hrun, herr, hc]
    simp only [hp]
  · intro c resp r choice rest hrun herr hc
    rw [llm.OpenAIClient.Generate_of_openAIRun t c prompt resp r hrun, herr, hc]
  · intro c resp r hrun herr hne htext
    rw [llm.ClaudeClient.Generate_of_claudeRun t c prompt resp r hrun, herr]
    have hlen : ¬ r.Content.length = 0 := fun h => hne (List.length_eq_zero.mp h)
    simp only [hlen, htext, if_false]
  · intro t2 prompt2 c c2 resp resp2 r h1 h2
    rw [llm.GeminiClient.Generate_of_geminiRun t c prompt resp r h1,
      llm.GeminiClient.Generate_of_geminiRun t2 c2 prompt2 resp2 r h2]
  · intro t2 prompt2 c c2 resp resp2 r h1 h2
    rw [llm.OpenAIClient.Generate_of_openAIRun t c prompt resp r h1,
      llm.OpenAIClient.Generate_of_openAIRun t2 c2 prompt2 resp2 r h2]
  · intro t2 prompt2 c c2 resp resp2 r h1 h2
    rw [llm.ClaudeClient.Generate_of_claudeRun t c prompt resp r h1,
      llm.ClaudeClient.Generate_of_claudeRun t2 c2 prompt2 resp2 r h2]

/-- C13, amended, in the sample network: status 429 with an error object next
to a payload, for each provider; status 503 with a payload and no error
object, for OpenAI and for Claude; and a Gemini response with an error object
under status 200 and under status 500. -/
theorem C13_error_object_is_error_witness :
    (∃ e, (llm.NewGeminiClient "key".toList).Generate
        (sampleTransport 429 errorGemini errorOpenAI errorClaude) "prompt".toList = .error e ∧
      strings.Contains e "quota exceeded".toList = true) ∧
    (∃ e, (llm.NewOpenAIClient "key".toList).Generate
        (sampleTransport 429 errorGemini errorOpenAI errorClaude) "prompt".toList = .error e ∧
      strings.Contains e "rate limit reached".toList = true) ∧
    (∃ e, (llm.NewClaudeClient "key".toList).Generate
        (sampleTransport 429 errorGemini errorOpenAI errorClaude) "prompt".toList = .error e ∧
      strings.Contains e "overloaded".toList = true) ∧
    (llm.NewOpenAIClient "key".toList).Generate
        (sampleTransport 503 emptyGemini payloadOpenAI payloadClaude) "prompt".toList
      = .ok "package main".toList ∧
    (llm.NewClaudeClient "key".toList).Generate
        (sampleTransport 503 emptyGemini payloadOpenAI payloadClaude) "prompt".toList
      = .ok "package main".toList ∧
    (llm.NewGeminiClient "key".toList).Generate
        (sampleTransport 200 errorGemini errorOpenAI errorClaude) "prompt".toList
      = (llm.NewGeminiClient "other".toList).Generate
        (sampleTransport 500 errorGemini emptyOpenAI emptyClaude) "again".toList :=
  ⟨(C13_error_object_is_error (sampleTransport 429 errorGemini errorOpenAI errorClaude)
      "prompt".toList).1 (llm.NewGeminiClient "key".toList)
      { StatusCode := 429, Body := "response".toList } errorGemini
      { Code := 429, Message := "quota exceeded".toList, Status := "RESOURCE_EXHAUSTED".toList }
      ⟨_, _, rfl, rfl, rfl, rfl, rfl⟩ rfl,
   (C13_error_object_is_error (sampleTransport 429 errorGemini errorOpenAI errorClaude)
      "prompt".toList).2.1 (llm.NewOpenAIClient "key".toList)
      { StatusCode := 429, Body := "response".toList } errorOpenAI
      { Message := "rate limit reached".toList, Typ := "rate_limit_error".toList, Code := [] }
      ⟨_, _, rfl, rfl, rfl, rfl, rfl⟩ rfl,
   (C13_error_object_is_error (sampleTransport 429 errorGemini errorOpenAI errorClaude)
      "prompt".toList).2.2.1 (llm.NewClaudeClient "key".toList)
      { StatusCode := 429, Body := "response".toList } errorClaude
      { Typ := "overloaded_error".toList, Message := "overloaded".toList }
      ⟨_, _, rfl, rfl, rfl, rfl, rfl⟩ rfl,
   (C13_error_object_is_error (sampleTransport 503 emptyGemini payloadOpenAI payloadClaude)
      "prompt".toList).2.2.2.2.1 (llm.NewOpenAIClient "key".toList)
      { StatusCode := 503, Body := "response".toList } payloadOpenAI
      { Message := { Role := "assistant".toList, Content := "package main".toList },
        FinishReason := "stop".toList } []
      ⟨_, _, rfl, rfl, rfl, rfl, rfl⟩ rfl rfl,
   (C13_error_object_is_error (sampleTransport 503 emptyGemini payloadOpenAI payloadClaude)
      "prompt".toList).2.2.2.2.2.1 (llm.NewClaudeClient "key".toList)
      { StatusCode := 503, Body := "response".toList } payloadClaude
      ⟨_, _, rfl, rfl, rfl, rfl, rfl⟩ rfl (by decide) (by decide),
   (C13_error_object_is_error (sampleTransport 200 errorGemini errorOpenAI errorClaude)
      "prompt".toList).2.2.2.2.2.2.1
      (sampleTransport 500 errorGemini emptyOpenAI emptyClaude) "again".toList
      (llm.NewGeminiClient "key".toList) (llm.NewGeminiClient "other".toList)
      { StatusCode := 200, Body := "response".toList }
      { StatusCode := 500, Body := "response".toList } errorGemini
      ⟨_, _, rfl, rfl, rfl, rfl, rfl⟩ ⟨_, _, rfl, rfl, rfl, rfl, rfl⟩⟩

/-- C14: `NewClient p k` fails if and only if `k` is empty or `p` is not one
of gemini, openai, claude (the providers for which `IsValid` holds); when it
succeeds it returns the client variant that corresponds to `p`, bound to
`k`. -/
theorem C14_NewClient (p : llm.Provider) (k : Str) :
    ((∃ e, llm.NewClient p k = .error e) ↔ (k = [] ∨ p ∉ llm.ValidProviders)) ∧
    (llm.Provider.IsValid p = true ↔ p ∈ llm.ValidProviders) ∧
    (k ≠ [] → p = llm.ProviderGemini →
      llm.NewClient p k = .ok (.gemini { apiKey := k, timeout := 60 })) ∧
    (k ≠ [] → p = llm.ProviderOpenAI →
      llm.NewClient p k = .ok (.openai { apiKey := k, timeout := 120 })) ∧
    (k ≠ [] → p = llm.ProviderClaude →
      llm.NewClient p k = .ok (.claude { apiKey := k, timeout := 120 })) := by
  have hmem : p ∈ llm.ValidProviders ↔
      (p = llm.ProviderGemini ∨ p = llm.ProviderOpenAI ∨ p = llm.ProviderClaude) := by
    simp [llm.ValidProviders]
  refine ⟨?_, ?_, ?_, ?_, ?_⟩
  · rw [hmem]
    have hok : ∀ (x : llm.Clienter), ¬ ∃ e : Str, (Except.ok x : Except Str llm.Clienter) = .error e :=
      fun x ⟨e, he⟩ => by cases he
    unfold llm.NewClient
    by_cases hk : k = []
    · rw [if_pos hk]
      exact ⟨fun _ => Or.inl hk, fun _ => ⟨_, rfl⟩⟩
    · rw [if_neg hk]
      by_cases h1 : p = llm.ProviderGemini
      · rw [if_pos h1]
        constructor
        · intro h; exact absurd h (hok _)
        · rintro (h | h)
          · exact absurd h hk
          · exact absurd (Or.inl h1) h
      · rw [if_neg h1]
        by_cases h2 : p = llm.ProviderOpenAI
        · rw [if_pos h2]
          constructor
          · intro h; exact absurd h (hok _)
          · rintro (h | h)
            · exact absurd h hk
            · exact absurd (Or.inr (Or.inl h2)) h
        · rw [if_neg h2]
          by_cases h3 : p = llm.ProviderClaude
          · rw [if_pos h3]
            constructor
            · intro h; exact absurd h (hok _)
            · rintro (h | h)
              · exact absurd h hk
              · exact absurd (Or.inr (Or.inr h3)) h
          · rw [if_neg h3]
            constructor
            · intro _
              refine Or.inr ?_
              rintro (h | h | h)
              · exact h1 h
              · exact h2 h
              · exact h3 h
            · intro _
              exact ⟨_, rfl⟩
  · rw [hmem]
    unfold llm.Provider.IsValid
    by_cases h : p = llm.ProviderGemini ∨ p = llm.ProviderOpenAI ∨ p = llm.ProviderClaude
    · simp [h]
    · simp [h]
  · intro hk hp
    subst hp
    unfold llm.NewClient
    rw [if_neg hk, if_pos rfl]
    rfl
  · intro hk hp
    subst hp
    unfold llm.NewClient
    rw [if_neg hk, if_neg (by decide), if_pos rfl]
    rfl
  · intro hk hp
    subst hp
    unfold llm.NewClient
    rw [if_neg hk, if_neg (by decide), if_neg (by decide), if_pos rfl]
    rfl

/-- C14 at the provider `claude` with a key, and at an unknown provider. -/
theorem C14_NewClient_witness :
    llm.NewClient "claude".toList "sk-1".toList
      = .ok (.claude { apiKey := "sk-1".toList, timeout := 120 }) ∧
    (∃ e, llm.NewClient "mistral".toList "sk-1".toList = .error e) ∧
    (∃ e, llm.NewClient "gemini".toList [] = .error e) :=
  ⟨(C14_NewClient "claude".toList "sk-1".toList).2.2.2.2 (by decide) rfl,
   (C14_NewClient "mistral".toList "sk-1".toList).1.mpr (Or.inr (by decide)),
   (C14_NewClient "gemini".toList []).1.mpr (Or.inl rfl)⟩

/-! ## Claims on the build step, the prompts and the shebang fallback -/

namespace generator

/-- A successful `Generate` has created the directory and written the
returned text to the output path, and nothing else. -/
theorem Generate_ok_trace (env : Env) (goCode outputPath : Str) (tr tr2 : List Event)
    (gen : GenerateResult) (h : Generate env goCode outputPath tr = (.ok gen, tr2)) :
    tr2 = tr ++ [Event.mkdirAll (filepath.Dir outputPath)]
      ++ [Event.writeFile outputPath gen.GoCode] ∧ gen.OutputPath = outputPath := by
  unfold Generate at h
  simp only at h
  split at h
  · cases h
  · split at h
    · cases h
    · cases h
      exact ⟨rfl, rfl⟩

end generator

namespace handler

/-- Once parsing, generation and writing have succeeded and a build is
requested, `Transpile` is decided by the build step. -/
theorem Transpile_build_step (env : Env) (opts : TranspileOptions) (parsed : parser.ParseResult)
    (goCode : Str) (gen : generator.GenerateResult) (tr tr1 tr2 : List Event)
    (hparse : parser.Parse env opts.InputPath = .ok parsed)
    (hsup : parser.IsSupportedType parsed.ScriptType = true)
    (hllm : RequestLLM env parsed.ScriptType parsed.Content tr = (.ok goCode, tr1))
    (hgen : generator.Generate env goCode (Spec.outputPathOf opts) tr1 = (.ok gen, tr2))
    (hb : opts.Build = true) :
    Transpile env opts tr =
      (match generator.Build env (Spec.outputPathOf opts) (Spec.binaryPathOf opts) tr2 with
       | (.error e, tr3) => (.error ("failed to build binary: ".toList ++ e), tr3)
       | (.ok _, tr3) =>
         (.ok { GoCode := gen.GoCode, OutputPath := gen.OutputPath,
                BinaryPath := Spec.binaryPathOf opts }, tr3)) := by
  unfold Spec.outputPathOf at hgen
  unfold Transpile
  simp only [hparse, hsup, hllm, hgen, hb]
  rfl

end handler

/-- C17: when the toolchain run fails with captured output `o`, `Build`
returns an error whose message contains `o`; and `Transpile` with `Build`
requested, once parsing, generation and writing have succeeded, returns an
error whose message contains `o` and no result, and its trace ends with the
write of the source file followed by the toolchain run: the written file is
not touched again. -/
theorem C17_build_failure_carries_output (env : Env) (o e : Str) :
    (∀ goFilePath binaryPath tr, env.goBuild goFilePath binaryPath = (o, some e) →
      ∃ msg, generator.Build env goFilePath binaryPath tr
          = (.error msg, tr ++ [Event.goBuild goFilePath binaryPath]) ∧
        strings.Contains msg o = true) ∧
    (∀ (opts : handler.TranspileOptions) parsed goCode gen (tr tr1 tr2 : List Event),
      parser.Parse env opts.InputPath = .ok parsed →
      parser.IsSupportedType parsed.ScriptType = true →
      handler.RequestLLM env parsed.ScriptType parsed.Content tr = (.ok goCode, tr1) →
      generator.Generate env goCode (Spec.outputPathOf opts) tr1 = (.ok gen, tr2) →
      opts.Build = true →
      env.goBuild (Spec.outputPathOf opts) (Spec.binaryPathOf opts) = (o, some e) →
      ∃ msg, handler.Transpile env opts tr
          = (.error msg,
             tr1 ++ [Event.mkdirAll (filepath.Dir (Spec.outputPathOf opts))]
               ++ [Event.writeFile (Spec.outputPathOf opts) gen.GoCode]
               ++ [Event.goBuild (Spec.outputPathOf opts) (Spec.binaryPathOf opts)]) ∧
        strings.Contains msg o = true) := by
  have hbuild : ∀ goFilePath binaryPath tr, env.goBuild goFilePath binaryPath = (o, some e) →
      generator.Build env goFilePath binaryPath tr
        = (.error ("build failed: ".toList ++ o ++ ": ".toList ++ e),
           tr ++ [Event.goBuild goFilePath binaryPath]) := by
    intro goFilePath binaryPath tr h
    unfold generator.Build
    simp only [h]
  constructor
  · intro goFilePath binaryPath tr h
    exact ⟨_, hbuild _ _ tr h, by
      rw [List.append_assoc]; exact strings.Contains_append_mid _ _ _⟩
  · intro opts parsed goCode gen tr tr1 tr2 hparse hsup hllm hgen hb hrun
    obtain ⟨htr2, _⟩ := generator.Generate_ok_trace env _ _ _ _ _ hgen
    refine ⟨"failed to build binary: ".toList ++
      ("build failed: ".toList ++ o ++ ": ".toList ++ e), ?_, ?_⟩
    · rw [handler.Transpile_build_step env opts parsed goCode gen tr tr1 tr2 hparse hsup hllm
        hgen hb, hbuild _ _ tr2 hrun, htr2]
    · have : "failed to build binary: ".toList ++ ("build failed: ".toList ++ o ++ ": ".toList ++ e)
          = ("failed to build binary: ".toList ++ "build failed: ".toList) ++ o
            ++ (": ".toList ++ e) := by
        simp
      rw [this]
      exact strings.Contains_append_mid _ _ _

/-- C17 in the sample environment with a toolchain that fails with the output
of the specification's scenario. -/
theorem C17_build_failure_carries_output_witness :
    ∃ msg, handler.Transpile
        sampleEnvBuildFails
        { InputPath := "hello.py".toList, OutputPath := [], Build := true, BinaryPath := [] } []
      = (.error msg,
         [Event.generate (llm.BuildTranspilePrompt llm.ScriptTypePython
            "#!/usr/bin/env python3\nprint(1)\n".toList)]
          ++ [Event.mkdirAll ".".toList]
          ++ [Event.writeFile "hello.go".toList "package main\n".toList]
          ++ [Event.goBuild "hello.go".toList "hello".toList]) ∧
      strings.Contains msg "undefined: foo".toList = true :=
  (C17_build_failure_carries_output
      sampleEnvBuildFails
      "undefined: foo".toList "exit status 1".toList).2
    { InputPath := "hello.py".toList, OutputPath := [], Build := true, BinaryPath := [] }
    { FilePath := "hello.py".toList, FileName := "hello.py".toList,
      ScriptType := parser.ScriptTypePython,
      Content := "#!/usr/bin/env python3\nprint(1)\n".toList }
    "```go\npackage main\n```".toList
    { GoCode := "package main\n".toList, OutputPath := "hello.go".toList, BinaryPath := [] }
    [] _ _ rfl rfl rfl rfl rfl rfl

/-- C18: for every script type and every code string, `BuildTranspilePrompt`
returns a non-empty prompt that contains the name of the script type, the
code verbatim, and the directive to return only Go code without explanation
or markdown formatting; for every Go code and error message,
`BuildRefinePrompt` returns a prompt that contains both verbatim. -/
theorem C18_prompts_contain_their_arguments (scriptType : llm.ScriptType)
    (code goCode errorMessage : Str) :
    llm.BuildTranspilePrompt scriptType code ≠ [] ∧
    strings.Contains (llm.BuildTranspilePrompt scriptType code) scriptType = true ∧
    strings.Contains (llm.BuildTranspilePrompt scriptType code) code = true ∧
    strings.Contains (llm.BuildTranspilePrompt scriptType code)
      "Return ONLY the Go code without any explanation or markdown formatting".toList = true ∧
    strings.Contains (llm.BuildRefinePrompt goCode errorMessage) errorMessage = true ∧
    strings.Contains (llm.BuildRefinePrompt goCode errorMessage) goCode = true := by
  refine ⟨?_, ?_, ?_, ?_, ?_, ?_⟩
  · have hshape : llm.BuildTranspilePrompt scriptType code
        = ("You are an expert Go programmer. Convert the following ".toList ++ scriptType ++
          " script to idiomatic Go code.\n\nRequirements:\n".toList ++
          "1. Use proper error handling with wrapped errors\n".toList ++
          "2. Follow Go naming conventions (camelCase for unexported, PascalCase for exported)\n".toList ++
          "3. Add necessary imports\n".toList ++
          "4. Include a main function that can be compiled into a standalone binary\n".toList ++
          "5. Add brief comments explaining the logic\n".toList ++
          "6. Use the standard library when possible\n".toList ++
          llm.onlyCodeDirective ++ "\n\n".toList ++
          scriptType ++ " script to convert:\n".toList ++
          "```\n".toList ++ code) ++ "\n```".toList := rfl
    rw [hshape]
    exact List.append_ne_nil_of_right_ne_nil _ (by decide)
  · rw [strings.Contains_iff_occurs]
    exact ⟨"You are an expert Go programmer. Convert the following ".toList,
      _, by simp only [llm.BuildTranspilePrompt, List.append_assoc]; rfl⟩
  · rw [strings.Contains_iff_occurs]
    exact ⟨_, "\n```".toList, rfl⟩
  · rw [strings.Contains_iff_occurs]
    refine ⟨"You are an expert Go programmer. Convert the following ".toList ++ scriptType ++
      " script to idiomatic Go code.\n\nRequirements:\n".toList ++
      "1. Use proper error handling with wrapped errors\n".toList ++
      "2. Follow Go naming conventions (camelCase for unexported, PascalCase for exported)\n".toList ++
      "3. Add necessary imports\n".toList ++
      "4. Include a main function that can be compiled into a standalone binary\n".toList ++
      "5. Add brief comments explaining the logic\n".toList ++
      "6. Use the standard library when possible\n".toList ++ "7. ".toList,
      "\n\n".toList ++ (scriptType ++ (" script to convert:\n".toList ++
      ("```\n".toList ++ (code ++ "\n```".toList)))), ?_⟩
    simp only [llm.BuildTranspilePrompt, llm.onlyCodeDirective, List.append_assoc]
    rfl
  · rw [strings.Contains_iff_occurs]
    exact ⟨_, _, by simp only [llm.BuildRefinePrompt, List.append_assoc]; rfl⟩
  · rw [strings.Contains_iff_occurs]
    exact ⟨_, "\n```".toList, rfl⟩

namespace strings

theorem Contains_of_occurs (l a b : Str) (hab : a <:+: b) (h : Contains l b = true) :
    Contains l a = true := by
  rw [Contains_iff_occurs] at h ⊢
  exact hab.trans h

end strings

/-- C19: in the shebang fallback the tests for `bash` and `zsh` are subsumed
by the test for `sh`: for every path with an unmapped (lower-cased) extension
and every content whose trimmed first line begins with `#!` and does not
contain `python`, `detectScriptType` returns shell if and only if that line
contains `sh`. -/
theorem C19_shebang_sh_subsumes (tbl : Char → Char) (filePath content : Str)
    (hext : strings.ToLower tbl (filepath.Ext filePath) ∉ Spec.mappedExtensions)
    (hmark : strings.HasPrefix (strings.TrimSpace (Spec.firstLine content)) "#!".toList = true)
    (hpy : strings.Contains (strings.TrimSpace (Spec.firstLine content)) "python".toList = false) :
    parser.detectScriptType tbl filePath content = parser.ScriptTypeShell ↔
      strings.Contains (strings.TrimSpace (Spec.firstLine content)) "sh".toList = true := by
  rw [parser.detectScriptType_unmapped tbl filePath content hext, if_pos hmark,
    if_neg (by rw [hpy]; exact Bool.false_ne_true)]
  constructor
  · intro h
    by_cases hc : (strings.Contains (strings.TrimSpace (Spec.firstLine content)) "bash".toList
        || strings.Contains (strings.TrimSpace (Spec.firstLine content)) "sh".toList
        || strings.Contains (strings.TrimSpace (Spec.firstLine content)) "zsh".toList) = true
    · rw [Bool.or_eq_true, Bool.or_eq_true] at hc
      rcases hc with (hc | hc) | hc
      · exact strings.Contains_of_occurs _ _ _ ⟨"ba".toList, [], rfl⟩ hc
      · exact hc
      · exact strings.Contains_of_occurs _ _ _ ⟨"z".toList, [], rfl⟩ hc
    · rw [if_neg hc] at h
      exact absurd h (by decide)
  · intro h
    rw [if_pos]
    rw [Bool.or_eq_true, Bool.or_eq_true]
    exact Or.inl (Or.inr h)

/-- C19 at directives for interpreters other than bash, sh and zsh: a fish
script is classified shell. -/
theorem C19_shebang_sh_subsumes_witness :
    parser.detectScriptType id "deploy".toList "#!/usr/bin/fish\necho hi\n".toList
      = parser.ScriptTypeShell :=
  (C19_shebang_sh_subsumes id "deploy".toList "#!/usr/bin/fish\necho hi\n".toList
    (by decide) (by decide) (by decide)).mpr (by decide)

/-! ## Lemmas on `filepath.Clean` -/

namespace filepath

theorem test_cleanState_1 :
    (cleanState "/a/../b/./c//d/..".toList).1 = Clean "/a/../b/./c//d/..".toList := by decide

theorem test_cleanState_2 :
    (cleanState "../a/../../b".toList).1 = Clean "../a/../../b".toList := by decide

theorem elementsAux_append_free (e : Str) (he : ∀ c ∈ e, isPathSeparator c = false) :
    ∀ (rest cur : Str), elementsAux (e ++ rest) cur = elementsAux rest (cur ++ e) := by
  induction e with
  | nil => intro rest cur; simp
  | cons c e1 ih =>
    intro rest cur
    have hc : isPathSeparator c = false := he c (by simp)
    have ih1 := ih (fun x hx => he x (by simp [hx])) rest (cur ++ [c])
    show elementsAux (c :: (e1 ++ rest)) cur = _
    simp only [elementsAux, hc, Bool.false_eq_true, if_false]
    rw [ih1]
    simp

theorem elementsAux_split : ∀ (x y cur : Str),
    elementsAux (x ++ '/' :: y) cur = elementsAux x cur ++ elements y := by
  intro x
  induction x with
  | nil =>
    intro y cur
    show elementsAux ('/' :: y) cur = _
    simp only [elementsAux]
    by_cases hcur : cur = []
    · simp [hcur, elements, isPathSeparator]
    · simp [hcur, elements, isPathSeparator]
  | cons c x1 ih =>
    intro y cur
    show elementsAux (c :: (x1 ++ '/' :: y)) cur = elementsAux (c :: x1) cur ++ elements y
    simp only [elementsAux]
    by_cases hc : isPathSeparator c = true
    · by_cases hcur : cur = []
      · simp [hc, hcur, ih]
      · simp [hc, hcur, ih]
    · simp [hc, ih]

/-- Splitting a text at a separator splits its elements. -/
theorem elements_split (x y : Str) :
    elements (x ++ '/' :: y) = elements x ++ elements y :=
  elementsAux_split x y []

theorem elements_nil : elements [] = [] := rfl

theorem elements_sep (y : Str) : elements ('/' :: y) = elements y := by
  have := elements_split [] y
  simpa [elements_nil] using this

/-- A non-empty text without separator is its only element. -/
theorem elements_free (e : Str) (hne : e ≠ []) (he : ∀ c ∈ e, isPathSeparator c = false) :
    elements e = [e] := by
  have := elementsAux_append_free e he [] []
  simp only [List.append_nil, List.nil_append] at this
  unfold elements
  rw [this]
  simp [elementsAux, hne]

theorem elements_append_sep (x : Str) : elements (x ++ ['/']) = elements x := by
  have := elements_split x []
  simpa [elements_nil] using this

/-- The elements of a text that starts outside a separator: its first run,
then the elements of what follows. -/
theorem elements_cons (c : Char) (rest : Str) (hc : isPathSeparator c = false) :
    elements (c :: rest) =
      (c :: rest).takeWhile (fun x => !isPathSeparator x) ::
        elements ((c :: rest).dropWhile (fun x => !isPathSeparator x)) := by
  have hsplit : c :: rest = (c :: rest).takeWhile (fun x => !isPathSeparator x) ++
      (c :: rest).dropWhile (fun x => !isPathSeparator x) :=
    (List.takeWhile_append_dropWhile _ _).symm
  have hfree : ∀ x ∈ (c :: rest).takeWhile (fun x => !isPathSeparator x),
      isPathSeparator x = false := by
    intro x hx
    have := List.mem_takeWhile_imp hx
    simpa using this
  have hne : (c :: rest).takeWhile (fun x => !isPathSeparator x) ≠ [] := by
    simp [List.takeWhile, hc]
  generalize (c :: rest).takeWhile (fun x => !isPathSeparator x) = e at hsplit hfree hne
  cases hd : (c :: rest).dropWhile (fun x => !isPathSeparator x) with
  | nil =>
    rw [hd] at hsplit
    rw [hsplit, List.append_nil, elements_free e hne hfree, elements_nil]
  | cons d t =>
    have hdsep : isPathSeparator d = true := by
      have := List.head_dropWhile_not (fun x => !isPathSeparator x) (c :: rest)
        (by rw [hd]; simp)
      simpa [hd] using this
    have hd2 : d = '/' := by simpa [isPathSeparator] using hdsep
    rw [hd] at hsplit
    rw [hsplit, hd2, elements_split, elements_free e hne hfree, elements_sep]
    rfl

end filepath

namespace filepath

/-- A text is at an element boundary: it is empty or starts with a
separator. -/
theorem takeWhile_boundary (t : Str) :
    t.takeWhile (fun x => !isPathSeparator x) = [] ↔
      (t = [] ∨ isPathSeparator (t.headD '/') = true) := by
  cases t with
  | nil => simp
  | cons d t1 =>
    by_cases hd : isPathSeparator d = true
    · simp [List.takeWhile, hd]
    · simp [List.takeWhile, hd]

theorem dropWhile_boundary (t : Str)
    (h : t = [] ∨ isPathSeparator (t.headD '/') = true) :
    t.dropWhile (fun x => !isPathSeparator x) = t := by
  cases t with
  | nil => rfl
  | cons d t1 =>
    have hd : isPathSeparator d = true := by simpa using h
    simp [List.dropWhile, hd]

theorem dropWhile_length_le (t : Str) :
    (t.dropWhile (fun x => !isPathSeparator x)).length ≤ t.length :=
  (List.dropWhile_suffix _).length_le

/-- The loop of `Clean`, with enough fuel, reads its input element by
element. -/
theorem cleanLoop_eq_fold (rooted : Bool) :
    ∀ (fuel : Nat) (s out : Str) (dd : Nat), s.length ≤ fuel →
      cleanLoop rooted fuel s out dd = ((elements s).foldl (cleanStep rooted) (out, dd)).1 := by
  intro fuel
  induction fuel with
  | zero =>
    intro s out dd hlen
    have hs : s = [] := List.length_eq_zero.mp (Nat.le_zero.mp hlen)
    subst hs
    rfl
  | succ fuel ih =>
    intro s out dd hlen
    cases s with
    | nil => rfl
    | cons c rest =>
      have hrest : rest.length ≤ fuel := by simpa using hlen
      simp only [cleanLoop]
      by_cases hsep : isPathSeparator c = true
      · have hc : c = '/' := by simpa [isPathSeparator] using hsep
        rw [if_pos hsep, hc, elements_sep]
        exact ih rest out dd hrest
      · have hsep2 : isPathSeparator c = false := by simpa using hsep
        rw [if_neg hsep, elements_cons c rest hsep2, List.foldl_cons]
        have htw : (c :: rest).takeWhile (fun x => !isPathSeparator x)
            = c :: rest.takeWhile (fun x => !isPathSeparator x) := by
          simp [List.takeWhile, hsep2]
        have hdw : (c :: rest).dropWhile (fun x => !isPathSeparator x)
            = rest.dropWhile (fun x => !isPathSeparator x) := by
          simp [List.dropWhile, hsep2]
        by_cases h1 : c = '.' ∧ (rest = [] ∨ isPathSeparator (rest.headD '/') = true)
        · rw [if_pos h1, htw, hdw, (takeWhile_boundary rest).mpr h1.2,
            dropWhile_boundary rest h1.2, h1.1]
          rw [ih rest out dd hrest]
          rfl
        · rw [if_neg h1]
          by_cases h2 : c = '.' ∧ rest.head? = some '.' ∧
              (rest.tail = [] ∨ isPathSeparator (rest.tail.headD '/') = true)
          · rw [if_pos h2]
            obtain ⟨hc, hhead, htail⟩ := h2
            cases rest with
            | nil => simp at hhead
            | cons d t =>
              have hd : d = '.' := by simpa using hhead
              subst hd
              subst hc
              have ht : t.length ≤ fuel := by
                have : (('.' : Char) :: t).length ≤ fuel := hrest
                simp at this
                omega
              have hbt : t = [] ∨ isPathSeparator (t.headD '/') = true := by simpa using htail
              have he : ('.' :: '.' :: t).takeWhile (fun x => !isPathSeparator x) = ['.', '.'] := by
                have h0 : isPathSeparator '.' = false := by decide
                simp only [List.takeWhile, h0, Bool.not_false]
                rw [(takeWhile_boundary t).mpr hbt]
              have hdr : ('.' :: '.' :: t).dropWhile (fun x => !isPathSeparator x) = t := by
                have h0 : isPathSeparator '.' = false := by decide
                simp only [List.dropWhile, h0, Bool.not_false]
                exact dropWhile_boundary t hbt
              rw [he, hdr]
              simp only [List.tail_cons]
              by_cases hgt : out.length > dd
              · rw [if_pos hgt, ih t _ dd ht]
                simp [cleanStep, hgt]
              · rw [if_neg hgt]
                cases rooted with
                | false =>
                  simp only [Bool.not_false, if_true]
                  rw [ih t _ _ ht]
                  simp [cleanStep, hgt]
                | true =>
                  simp only [Bool.not_true, Bool.false_eq_true, if_false]
                  rw [ih t _ _ ht]
                  simp [cleanStep, hgt]
          · rw [if_neg h2]
            have hne1 : (c :: rest).takeWhile (fun x => !isPathSeparator x) ≠ ['.'] := by
              intro h
              rw [htw] at h
              simp only [List.cons.injEq] at h
              exact h1 ⟨h.1, (takeWhile_boundary rest).mp h.2⟩
            have hne2 : (c :: rest).takeWhile (fun x => !isPathSeparator x) ≠ ['.', '.'] := by
              intro h
              rw [htw] at h
              simp only [List.cons.injEq] at h
              obtain ⟨hc, hr⟩ := h
              cases rest with
              | nil => simp at hr
              | cons d t =>
                by_cases hds : isPathSeparator d = true
                · simp [List.takeWhile, hds] at hr
                · simp only [List.takeWhile, hds, Bool.not_false] at hr
                  have hds2 : isPathSeparator d = false := by simpa using hds
                  simp only [hds2, Bool.not_false, List.cons.injEq] at hr
                  exact h2 ⟨hc, by simp [hr.1], by
                    simpa using (takeWhile_boundary t).mp hr.2⟩
            have hlen2 : ((c :: rest).dropWhile (fun x => !isPathSeparator x)).length ≤ fuel := by
              rw [hdw]
              exact le_trans (dropWhile_length_le rest) hrest
            rw [ih _ _ dd hlen2]
            simp only [cleanStep, hne1, hne2, if_false]

end filepath

namespace filepath

/-- `Clean` is the buffer of the state after the whole path, or `.` when the
buffer is empty. -/
theorem Clean_eq_state (s : Str) :
    Clean s = if (cleanState s).1 = [] then ['.'] else (cleanState s).1 := by
  cases s with
  | nil => rfl
  | cons c rest =>
    unfold Clean cleanState
    by_cases hsep : isPathSeparator c = true
    · have hc : c = '/' := by simpa [isPathSeparator] using hsep
      subst hc
      simp only [hsep, if_true]
      rw [cleanLoop_eq_fold true _ rest _ _ (by simp), elements_sep]
      simp [cleanInit, List.length_eq_zero]
    · have hc : c ≠ '/' := by simpa [isPathSeparator] using hsep
      have hb : (c == '/') = false := by simpa using hc
      simp only [hsep]
      rw [cleanLoop_eq_fold false _ (c :: rest) _ _ (le_refl _)]
      simp [cleanInit, hc, hb, List.length_eq_zero]

/-- Every element is non-empty and free of separators. -/
theorem elementsAux_mem : ∀ (s cur : Str), (∀ c ∈ cur, isPathSeparator c = false) →
    ∀ e ∈ elementsAux s cur, e ≠ [] ∧ ∀ c ∈ e, isPathSeparator c = false := by
  intro s
  induction s with
  | nil =>
    intro cur hcur e he
    simp only [elementsAux] at he
    by_cases hc : cur = []
    · simp [hc] at he
    · simp [hc] at he
      subst he
      exact ⟨hc, hcur⟩
  | cons c cs ih =>
    intro cur hcur e he
    simp only [elementsAux] at he
    by_cases hsep : isPathSeparator c = true
    · by_cases hc : cur = []
      · simp only [hsep, hc, if_true] at he
        exact ih [] (by simp) e he
      · simp only [hsep, hc, if_true, if_false, List.mem_cons] at he
        rcases he with he | he
        · subst he
          exact ⟨hc, hcur⟩
        · exact ih [] (by simp) e he
    · simp only [hsep, if_false] at he
      refine ih (cur ++ [c]) ?_ e he
      intro x hx
      simp only [List.mem_append, List.mem_singleton] at hx
      rcases hx with hx | hx
      · exact hcur x hx
      · subst hx
        simpa using hsep

theorem elements_mem (s e : Str) (he : e ∈ elements s) :
    e ≠ [] ∧ ∀ c ∈ e, isPathSeparator c = false :=
  elementsAux_mem s [] (by simp) e he

/-- The inner loop of the `..` case stops at `dotdot` or on a separator. -/
theorem backLoop_spec (out : Str) (dd : Nat) :
    ∀ (fuel w : Nat), w ≤ fuel → dd ≤ w →
      dd ≤ backLoop out dd fuel w ∧ backLoop out dd fuel w ≤ w ∧
      (backLoop out dd fuel w = dd ∨
        isPathSeparator (out.getD (backLoop out dd fuel w) '/') = true) := by
  intro fuel
  induction fuel with
  | zero =>
    intro w hw hdd
    have hw0 : w = 0 := Nat.le_zero.mp hw
    subst hw0
    have hdd0 : dd = 0 := Nat.le_zero.mp hdd
    subst hdd0
    simp [backLoop]
  | succ fuel ih =>
    intro w hw hdd
    simp only [backLoop]
    by_cases hc : (decide (w > dd) && !isPathSeparator (out.getD w '/')) = true
    · rw [if_pos hc]
      simp only [Bool.and_eq_true, decide_eq_true_eq] at hc
      obtain ⟨h1, h2, h3⟩ := ih (w - 1) (by omega) (by omega)
      exact ⟨h1, by omega, h3⟩
    · rw [if_neg hc]
      refine ⟨hdd, le_refl _, ?_⟩
      simp only [Bool.and_eq_true, decide_eq_true_eq, not_and, Bool.not_eq_true,
        Bool.not_eq_false'] at hc
      by_cases hgt : w > dd
      · right
        simpa using hc hgt
      · left
        omega

end filepath

namespace filepath

theorem CleanInv_init (rooted : Bool) : CleanInv rooted (cleanInit rooted) := by
  cases rooted with
  | true =>
    refine ⟨?_, ?_, ?_, ?_⟩
    · simp [cleanInit]
    · intro _; simp [cleanInit]
    · intro h; cases h
    · intro w hw1 hw2 _
      have hw : w = 1 := by
        simp [cleanInit] at hw1 hw2
        omega
      subst hw
      simp [cleanInit, elements_sep, elements_nil]
  | false =>
    refine ⟨?_, ?_, ?_, ?_⟩
    · simp [cleanInit]
    · intro h; cases h
    · intro _; simp [cleanInit]
    · intro w hw1 hw2 _
      have hw : w = 0 := by
        simp [cleanInit] at hw2
        omega
      subst hw
      simp [cleanInit, elements_nil]

theorem getElem?_of_getD_sep (out : Str) (w : Nat) (hw : w < out.length)
    (h : isPathSeparator (out.getD w '/') = true) : out[w]? = some '/' := by
  rw [List.getD_eq_getElem _ _ hw] at h
  have : out[w] = '/' := by simpa [isPathSeparator] using h
  rw [List.getElem?_eq_getElem hw, this]

/-- The invariant survives the removal of the last element. -/
theorem CleanInv_pop (rooted : Bool) (out : Str) (dd : Nat) (hinv : CleanInv rooted (out, dd))
    (hgt : out.length > dd) : CleanInv rooted (backtrack out dd, dd) := by
  obtain ⟨h1, h2, h3, h4⟩ := hinv
  simp only at h1 h2 h3 h4
  obtain ⟨hb1, hb2, hb3⟩ := backLoop_spec out dd out.length (out.length - 1)
    (by omega) (by omega)
  unfold backtrack
  generalize backLoop out dd out.length (out.length - 1) = w0 at hb1 hb2 hb3
  have hlen : (out.take w0).length = w0 := by
    rw [List.length_take]; omega
  refine ⟨?_, ?_, ?_, ?_⟩
  · simp only [hlen]; exact hb1
  · intro hr
    obtain ⟨hd, hh⟩ := h2 hr
    refine ⟨hd, ?_⟩
    simp only
    rw [List.head?_take]
    have : w0 ≠ 0 := by omega
    simp [this, hh]
  · intro hr
    simp only
    rw [List.head?_take]
    by_cases hw0 : w0 = 0
    · simp [hw0]
    · simp only [hw0, if_false]
      exact h3 hr
  · intro w hw1 hw2 hw3
    simp only [hlen] at hw2 hw3
    simp only at hw1
    have htk : (out.take w0).take w = out.take w := by
      rw [List.take_take, Nat.min_eq_left hw2]
    simp only
    rw [htk]
    apply h4 w hw1 (by omega)
    rcases hw3 with hw3 | hw3 | hw3
    · subst hw3
      rcases hb3 with hb3 | hb3
      · exact Or.inr (Or.inl hb3)
      · exact Or.inr (Or.inr (getElem?_of_getD_sep out w (by omega) hb3))
    · exact Or.inr (Or.inl hw3)
    · right; right
      rw [List.getElem?_take] at hw3
      by_cases hlt : w < w0
      · simpa [hlt] using hw3
      · simp [hlt] at hw3

/-- The elements of a buffer to which an element was joined. -/
theorem elements_join (out e : Str) (hne : e ≠ [])
    (hfree : ∀ c ∈ e, isPathSeparator c = false) (slash : Bool)
    (h : slash = false → out = [] ∨ out = ['/']) :
    elements ((if slash then out ++ ['/'] else out) ++ e) = elements out ++ [e] := by
  cases slash with
  | true =>
    simp only [if_true]
    rw [List.append_assoc, List.singleton_append, elements_split, elements_free e hne hfree]
  | false =>
    simp only [Bool.false_eq_true, if_false]
    rcases h rfl with h | h
    · subst h
      simp [elements_free e hne hfree, elements_nil]
    · subst h
      simp [elements_sep, elements_free e hne hfree, elements_nil]

end filepath

namespace filepath

theorem foldl_join (rooted : Bool) (out e : Str) (dd : Nat)
    (hself : (elements out).foldl (cleanStep rooted) (cleanInit rooted) = (out, dd))
    (hne : e ≠ []) (hfree : ∀ c ∈ e, isPathSeparator c = false) (slash : Bool)
    (h : slash = false → out = [] ∨ out = ['/']) :
    (elements ((if slash then out ++ ['/'] else out) ++ e)).foldl (cleanStep rooted)
        (cleanInit rooted) = cleanStep rooted (out, dd) e := by
  rw [elements_join out e hne hfree slash h, List.foldl_append, hself]
  rfl

theorem CleanInv_self (rooted : Bool) (out : Str) (dd : Nat)
    (hinv : CleanInv rooted (out, dd)) :
    (elements out).foldl (cleanStep rooted) (cleanInit rooted) = (out, dd) := by
  have := hinv.2.2.2 out.length hinv.1 (le_refl _) (Or.inl rfl)
  simpa using this

/-- When no separator is put before a new element, the buffer is empty or
is the root. -/
theorem no_slash (rooted : Bool) (out : Str) (dd : Nat) (hinv : CleanInv rooted (out, dd))
    (h : ((rooted && out.length != 1) || (!rooted && out.length != 0)) = false) :
    out = [] ∨ out = ['/'] := by
  obtain ⟨_, h2, _, _⟩ := hinv
  simp only at h2
  cases rooted with
  | true =>
    right
    have hlen : out.length = 1 := by simpa using h
    obtain ⟨_, hh⟩ := h2 rfl
    cases out with
    | nil => simp at hlen
    | cons a t =>
      have ha : a = '/' := by simpa using hh
      have ht : t = [] := by
        simp at hlen
        exact hlen
      rw [ha, ht]
  | false =>
    left
    have hlen : out.length = 0 := by simpa using h
    exact List.length_eq_zero.mp hlen

/-- The invariant survives the addition of a regular element. -/
theorem CleanInv_push (rooted : Bool) (out e : Str) (dd : Nat)
    (hinv : CleanInv rooted (out, dd))
    (hne : e ≠ []) (hfree : ∀ c ∈ e, isPathSeparator c = false)
    (h1 : e ≠ ['.']) (h2 : e ≠ ['.', '.']) :
    CleanInv rooted
      ((if (rooted && out.length != 1) || (!rooted && out.length != 0) then out ++ ['/']
        else out) ++ e, dd) := by
  have hself := CleanInv_self rooted out dd hinv
  have hstep : cleanStep rooted (out, dd) e =
      ((if (rooted && out.length != 1) || (!rooted && out.length != 0) then out ++ ['/']
        else out) ++ e, dd) := by
    simp only [cleanStep, h1, h2, if_false]
  have hns := no_slash rooted out dd hinv
  obtain ⟨hi1, hi2, hi3, hi4⟩ := hinv
  simp only at hi1 hi2 hi3 hi4
  generalize hsl : ((rooted && out.length != 1) || (!rooted && out.length != 0)) = slash
    at hstep hns
  have hfold := foldl_join rooted out e dd hself hne hfree slash hns
  have hshape : (if slash = true then out ++ ['/'] else out) ++ e
      = out ++ ((if slash = true then ['/'] else []) ++ e) := by
    cases slash <;> simp
  have hepos : 0 < e.length := List.length_pos.mpr hne
  refine ⟨?_, ?_, ?_, ?_⟩
  · simp only [hshape, List.length_append]
    omega
  · intro hr
    obtain ⟨hd, hh⟩ := hi2 hr
    refine ⟨hd, ?_⟩
    simp only [hshape]
    cases out with
    | nil => simp at hh
    | cons a t => simpa using hh
  · intro hr
    simp only [hshape]
    cases out with
    | nil =>
      have hs : slash = false := by
        rw [← hsl, hr]; rfl
      cases e with
      | nil => exact absurd rfl hne
      | cons a t =>
        have ha := hfree a (by simp)
        simp only [hs, Bool.false_eq_true, if_false, List.nil_append, List.head?_cons]
        intro hc
        simp only [Option.some.injEq] at hc
        rw [hc] at ha
        exact absurd ha (by decide)
    | cons a t =>
      have := hi3 hr
      simpa using this
  · intro w hw1 hw2 hw3
    simp only at hw1 hw2 hw3 ⊢
    by_cases hle : w ≤ out.length
    · rw [hshape, List.take_append_of_le_length hle]
      apply hi4 w hw1 hle
      by_cases hweq : w = out.length
      · exact Or.inl hweq
      · have hlt : w < out.length := by omega
        rcases hw3 with hw3 | hw3 | hw3
        · exfalso
          rw [hshape, List.length_append, List.length_append] at hw3
          omega
        · exact Or.inr (Or.inl hw3)
        · right; right
          rw [hshape, List.getElem?_append_left hlt] at hw3
          exact hw3
    · have hgt : out.length < w := by omega
      have hweq : w = ((if slash = true then out ++ ['/'] else out) ++ e).length := by
        rcases hw3 with hw3 | hw3 | hw3
        · exact hw3
        · omega
        · exfalso
          rw [hshape, List.getElem?_append_right (by omega)] at hw3
          have hmem : '/' ∈ (if slash = true then ['/'] else []) ++ e :=
            List.getElem?_mem hw3
          cases slash with
          | true =>
            simp only [if_true, List.singleton_append] at hw3 hmem
            have hidx : w - out.length ≠ 0 := by omega
            obtain ⟨k, hk⟩ := Nat.exists_eq_succ_of_ne_zero hidx
            rw [hk] at hw3
            simp only [List.getElem?_cons_succ] at hw3
            have := hfree '/' (List.getElem?_mem hw3)
            exact absurd this (by decide)
          | false =>
            simp only [Bool.false_eq_true, if_false, List.nil_append] at hmem
            have := hfree '/' hmem
            exact absurd this (by decide)
      rw [hweq, List.take_length, hfold, hstep]

end filepath

namespace filepath

/-- The invariant survives the addition of `..` to an unrooted buffer. -/
theorem CleanInv_dotdot (out : Str) (dd : Nat) (hinv : CleanInv false (out, dd))
    (hle : ¬ out.length > dd) :
    CleanInv false
      ((if out.length > 0 then out ++ ['/'] else out) ++ ['.', '.'],
       ((if out.length > 0 then out ++ ['/'] else out) ++ ['.', '.']).length) := by
  have hself := CleanInv_self false out dd hinv
  have hstep : cleanStep false (out, dd) ['.', '.'] =
      ((if out.length > 0 then out ++ ['/'] else out) ++ ['.', '.'],
       ((if out.length > 0 then out ++ ['/'] else out) ++ ['.', '.']).length) := by
    simp [cleanStep, hle]
  have hfold := foldl_join false out ['.', '.'] dd hself (by simp) (by decide)
    (decide (out.length > 0)) (by
      intro h
      left
      have : ¬ out.length > 0 := by simpa using h
      exact List.length_eq_zero.mp (by omega))
  simp only [decide_eq_true_eq] at hfold
  have hi3 : out.head? ≠ some '/' := hinv.2.2.1 rfl
  refine ⟨le_refl _, ?_, ?_, ?_⟩
  · intro h; cases h
  · intro _
    cases out with
    | nil => simp
    | cons a t => simpa using hi3
  · intro w hw1 hw2 _
    simp only at hw1 hw2 ⊢
    have hw : w = ((if out.length > 0 then out ++ ['/'] else out) ++ ['.', '.']).length :=
      le_antisymm hw2 hw1
    rw [hw, List.take_length, hfold, hstep]

/-- Every round of the loop keeps the invariant. -/
theorem CleanInv_step (rooted : Bool) (st : Str × Nat) (e : Str) (hinv : CleanInv rooted st)
    (hne : e ≠ []) (hfree : ∀ c ∈ e, isPathSeparator c = false) :
    CleanInv rooted (cleanStep rooted st e) := by
  obtain ⟨out, dd⟩ := st
  unfold cleanStep
  by_cases h1 : e = ['.']
  · rw [if_pos h1]; exact hinv
  · rw [if_neg h1]
    by_cases h2 : e = ['.', '.']
    · rw [if_pos h2]
      simp only
      by_cases hgt : out.length > dd
      · rw [if_pos hgt]
        exact CleanInv_pop rooted out dd hinv hgt
      · rw [if_neg hgt]
        cases rooted with
        | false =>
          simp only [Bool.not_false, if_true]
          exact CleanInv_dotdot out dd hinv hgt
        | true =>
          simp only [Bool.not_true, Bool.false_eq_true, if_false]
          exact hinv
    · rw [if_neg h2]
      exact CleanInv_push rooted out e dd hinv hne hfree h1 h2

theorem CleanInv_foldl (rooted : Bool) : ∀ (es : List Str) (st : Str × Nat),
    CleanInv rooted st → (∀ e ∈ es, e ≠ [] ∧ ∀ c ∈ e, isPathSeparator c = false) →
    CleanInv rooted (es.foldl (cleanStep rooted) st) := by
  intro es
  induction es with
  | nil => intro st h _; exact h
  | cons e es ih =>
    intro st h hes
    rw [List.foldl_cons]
    apply ih
    · exact CleanInv_step rooted st e h (hes e (by simp)).1 (hes e (by simp)).2
    · intro e1 he1
      exact hes e1 (by simp [he1])

/-- The state after any text satisfies the invariant. -/
theorem CleanInv_state (s : Str) : CleanInv (s.head? == some '/') (cleanState s) :=
  CleanInv_foldl _ _ _ (CleanInv_init _) (fun e he => elements_mem s e he)

end filepath

namespace filepath

theorem Clean_ne_nil (s : Str) : Clean s ≠ [] := by
  rw [Clean_eq_state]
  by_cases h : (cleanState s).1 = []
  · rw [if_pos h]; simp
  · rw [if_neg h]; exact h

/-- A cleaned path is rooted exactly when the path is. -/
theorem Clean_rooted (q x : Str) :
    ((Clean q ++ x).head? == some '/') = (q.head? == some '/') := by
  have hinv := CleanInv_state q
  rw [Clean_eq_state]
  obtain ⟨_, h2, h3, _⟩ := hinv
  cases hr : (q.head? == some '/') with
  | true =>
    obtain ⟨_, hh⟩ := h2 hr
    have hne : (cleanState q).1 ≠ [] := by
      intro h; rw [h] at hh; simp at hh
    rw [if_neg hne]
    cases hst : (cleanState q).1 with
    | nil => exact absurd hst hne
    | cons a t =>
      rw [hst] at hh
      simpa using hh
  | false =>
    have hh := h3 hr
    by_cases hne : (cleanState q).1 = []
    · rw [if_pos hne]; rfl
    · rw [if_neg hne]
      cases hst : (cleanState q).1 with
      | nil => exact absurd hst hne
      | cons a t =>
        rw [hst] at hh
        simpa using hh

/-- Reading a cleaned path again leads to the state it was built from. -/
theorem foldl_Clean (q : Str) :
    (elements (Clean q)).foldl (cleanStep (q.head? == some '/'))
        (cleanInit (q.head? == some '/')) = cleanState q := by
  have hinv := CleanInv_state q
  rw [Clean_eq_state]
  by_cases hne : (cleanState q).1 = []
  · rw [if_pos hne]
    obtain ⟨h1, h2, _, _⟩ := hinv
    have hr : (q.head? == some '/') = false := by
      cases hr : (q.head? == some '/') with
      | false => rfl
      | true =>
        obtain ⟨_, hh⟩ := h2 hr
        rw [hne] at hh
        simp at hh
    have hdd : (cleanState q).2 = 0 := by
      rw [hne] at h1
      simpa using h1
    rw [hr, elements_free ['.'] (by simp) (by decide)]
    simp only [List.foldl_cons, List.foldl_nil, cleanStep, if_true, cleanInit]
    exact (Prod.ext (by simp [hne]) (by simp [hdd])).symm
  · rw [if_neg hne]
    exact CleanInv_self _ _ _ hinv

/-- The state after a cleaned path, a separator and a further text. -/
theorem cleanState_Clean_append (q y : Str) :
    cleanState (Clean q ++ '/' :: y)
      = (elements y).foldl (cleanStep (q.head? == some '/')) (cleanState q) := by
  unfold cleanState
  rw [Clean_rooted q ('/' :: y), elements_split, List.foldl_append]
  have := foldl_Clean q
  unfold cleanState at this
  rw [this]

/-- Joining a regular element to a cleaned path: the element is put behind
the buffer the cleaned path was built from. -/
theorem Clean_join (q y e : Str) (hy : elements y = [e]) (h1 : e ≠ ['.'])
    (h2 : e ≠ ['.', '.']) :
    Clean (Clean q ++ '/' :: y) =
      (if ((q.head? == some '/') && (cleanState q).1.length != 1) ||
          (!(q.head? == some '/') && (cleanState q).1.length != 0)
        then (cleanState q).1 ++ ['/'] else (cleanState q).1) ++ e := by
  have he : e ≠ [] := (elements_mem y e (by rw [hy]; simp)).1
  rw [Clean_eq_state, cleanState_Clean_append, hy]
  simp only [List.foldl_cons, List.foldl_nil, cleanStep, h1, h2, if_false]
  rw [if_neg]
  simp [he]

theorem rtakeWhile_append_free (l e : Str) (he : ∀ c ∈ e, isPathSeparator c = false)
    (hl : l = [] ∨ ∃ o, l = o ++ ['/']) :
    (l ++ e).rtakeWhile (fun x => !isPathSeparator x) = e := by
  unfold List.rtakeWhile
  rw [List.reverse_append, List.takeWhile_append_of_pos (by
    intro a ha
    have := he a (List.mem_reverse.mp ha)
    simp [this])]
  rcases hl with hl | ⟨o, hl⟩
  · subst hl; simp
  · subst hl
    simp [List.takeWhile, isPathSeparator]

theorem rdropWhile_sep_free (x e : Str) (hne : e ≠ [])
    (he : ∀ c ∈ e, isPathSeparator c = false) :
    (x ++ e).rdropWhile isPathSeparator = x ++ e := by
  rw [List.rdropWhile_eq_self_iff]
  intro hne2
  have hlast : (x ++ e).getLast hne2 = e.getLast hne := List.getLast_append_right hne
  rw [hlast]
  have := he (e.getLast hne) (List.getLast_mem hne)
  simp [this]

/-- The base of a path that ends with a regular element after a separator. -/
theorem Base_join (l e : Str) (hne : e ≠ []) (he : ∀ c ∈ e, isPathSeparator c = false)
    (hl : l = [] ∨ ∃ o, l = o ++ ['/']) : Base (l ++ e) = e := by
  unfold Base
  have hx : l ++ e ≠ [] := by simp [hne]
  rw [if_neg hx]
  simp only
  rw [rdropWhile_sep_free l e hne he, rtakeWhile_append_free l e he hl, if_neg hne]

end filepath

namespace filepath

theorem cleanState_def (s : Str) :
    cleanState s = (elements s).foldl (cleanStep (s.head? == some '/'))
      (cleanInit (s.head? == some '/')) := rfl

theorem CleanInv_head (r : Bool) (out : Str) (dd : Nat) (hinv : CleanInv r (out, dd))
    (hne : out ≠ []) (x : Str) : ((out ++ x).head? == some '/') = r := by
  obtain ⟨_, hi2, hi3, _⟩ := hinv
  cases out with
  | nil => exact absurd rfl hne
  | cons a t =>
    cases r with
    | true =>
      have := (hi2 rfl).2
      simpa using this
    | false =>
      have := hi3 rfl
      simpa using this

/-- Joining a regular element to a cleaned path gives a path that ends with
the element, right after a separator or at the start; what stands before the
element cleans to the path that was joined to. -/
theorem Clean_join_shape (q y e : Str) (hy : elements y = [e]) (h1 : e ≠ ['.'])
    (h2 : e ≠ ['.', '.']) :
    ∃ l, (l = [] ∨ ∃ o, l = o ++ ['/']) ∧ Clean (Clean q ++ '/' :: y) = l ++ e ∧
      Clean l = Clean q := by
  have hinv := CleanInv_state q
  have hself : (elements (cleanState q).1).foldl (cleanStep (q.head? == some '/'))
      (cleanInit (q.head? == some '/')) = cleanState q :=
    CleanInv_self _ (cleanState q).1 (cleanState q).2 hinv
  have hns : (((q.head? == some '/') && (cleanState q).1.length != 1) ||
      (!(q.head? == some '/') && (cleanState q).1.length != 0)) = false →
      (cleanState q).1 = [] ∨ (cleanState q).1 = ['/'] :=
    no_slash _ (cleanState q).1 (cleanState q).2 hinv
  rw [Clean_join q y e hy h1 h2]
  by_cases hc : (((q.head? == some '/') && (cleanState q).1.length != 1) ||
      (!(q.head? == some '/') && (cleanState q).1.length != 0)) = true
  · rw [if_pos hc]
    refine ⟨(cleanState q).1 ++ ['/'], Or.inr ⟨_, rfl⟩, rfl, ?_⟩
    have hne : (cleanState q).1 ≠ [] := by
      intro h
      cases hr : (q.head? == some '/') with
      | true =>
        have := (hinv.2.1 hr).2
        rw [h] at this
        simp at this
      | false =>
        rw [h, hr] at hc
        simp at hc
    have hroot := CleanInv_head _ (cleanState q).1 (cleanState q).2 hinv hne ['/']
    have hstate : cleanState ((cleanState q).1 ++ ['/']) = cleanState q := by
      rw [cleanState_def ((cleanState q).1 ++ ['/']), hroot, elements_append_sep]
      exact hself
    rw [Clean_eq_state, hstate, ← Clean_eq_state]
  · rw [if_neg hc]
    have hc2 : (((q.head? == some '/') && (cleanState q).1.length != 1) ||
        (!(q.head? == some '/') && (cleanState q).1.length != 0)) = false := by simpa using hc
    rcases hns hc2 with h | h
    · refine ⟨[], Or.inl rfl, by rw [h], ?_⟩
      rw [Clean_eq_state q, h]
      rfl
    · refine ⟨['/'], Or.inr ⟨[], rfl⟩, by rw [h], ?_⟩
      rw [Clean_eq_state q, h]
      rfl

theorem rdropWhile_boundary (l : Str) (hl : l = [] ∨ ∃ o, l = o ++ ['/']) :
    l.rdropWhile (fun x => !isPathSeparator x) = l := by
  rcases hl with hl | ⟨o, hl⟩
  · subst hl; rfl
  · subst hl
    exact List.rdropWhile_concat_neg _ _ _ (by simp [isPathSeparator])

/-- The directory and the base of a cleaned path to which a regular element
was joined. -/
theorem Dir_Base_join (q y e : Str) (hy : elements y = [e]) (h1 : e ≠ ['.'])
    (h2 : e ≠ ['.', '.']) :
    Dir (Clean (Clean q ++ '/' :: y)) = Clean q ∧
    Base (Clean (Clean q ++ '/' :: y)) = e ∧
    e <:+ Clean (Clean q ++ '/' :: y) := by
  obtain ⟨hne, hfree⟩ := elements_mem y e (by rw [hy]; simp)
  obtain ⟨l, hl, hjoin, hclean⟩ := Clean_join_shape q y e hy h1 h2
  rw [hjoin]
  refine ⟨?_, Base_join l e hne hfree hl, ⟨l, rfl⟩⟩
  unfold Dir
  rw [strings.rdropWhile_append_of_pos _ l e (by
    intro c hc
    simp [hfree c hc]), rdropWhile_boundary l hl, hclean]

/-- The base of a path is the root, or a non-empty text without separator. -/
theorem Base_free (p : Str) :
    Base p = ['/'] ∨ (Base p ≠ [] ∧ ∀ c ∈ Base p, isPathSeparator c = false) := by
  unfold Base
  by_cases hp : p = []
  · rw [if_pos hp]
    right
    exact ⟨by simp, by decide⟩
  · rw [if_neg hp]
    simp only
    by_cases hl : (p.rdropWhile isPathSeparator).rtakeWhile (fun x => !isPathSeparator x) = []
    · rw [if_pos hl]
      left; rfl
    · rw [if_neg hl]
      right
      refine ⟨hl, ?_⟩
      intro c hc
      unfold List.rtakeWhile at hc
      have := List.mem_takeWhile_imp (List.mem_reverse.mp hc)
      simpa using this

theorem Ext_go (x : Str) : Ext (x ++ ".go".toList) = ".go".toList := by
  unfold Ext
  have : (x ++ ".go".toList).reverse = 'o' :: 'g' :: '.' :: x.reverse := by
    rw [List.reverse_append]; rfl
  rw [this]
  rfl

end filepath

namespace strings

theorem TrimSuffix_append (N suf : Str) : TrimSuffix (N ++ suf) suf = N := by
  unfold TrimSuffix
  have h : suf.isSuffixOf (N ++ suf) = true := by
    rw [List.isSuffixOf_iff_suffix]
    exact ⟨N, rfl⟩
  rw [if_pos h]
  apply List.take_left'
  simp

theorem TrimSuffix_mem (s suf : Str) (c : Char) (hc : c ∈ TrimSuffix s suf) : c ∈ s := by
  unfold TrimSuffix at hc
  by_cases h : suf.isSuffixOf s = true
  · rw [if_pos h] at hc
    exact List.mem_of_mem_take hc
  · rw [if_neg h] at hc
    exact hc

end strings

/-! ## Claims on the default paths -/

namespace generator

theorem GetDefaultOutputPath_eq (p : Str) :
    GetDefaultOutputPath p =
      filepath.Clean (filepath.Clean (p.rdropWhile (fun x => !filepath.isPathSeparator x)) ++
        '/' :: (strings.TrimSuffix (filepath.Base p) (filepath.Ext (filepath.Base p))
          ++ ".go".toList)) := by
  unfold GetDefaultOutputPath filepath.Join
  simp only
  rw [if_pos (by unfold filepath.Dir; exact filepath.Clean_ne_nil _)]
  unfold filepath.Dir
  rw [List.append_assoc]
  rfl

theorem GetDefaultBinaryPath_eq (s : Str) :
    GetDefaultBinaryPath s =
      filepath.Clean (filepath.Clean (s.rdropWhile (fun x => !filepath.isPathSeparator x)) ++
        '/' :: strings.TrimSuffix (filepath.Base s) ".go".toList) := by
  unfold GetDefaultBinaryPath filepath.Join
  simp only
  rw [if_pos (by unfold filepath.Dir; exact filepath.Clean_ne_nil _)]
  unfold filepath.Dir
  rw [List.append_assoc]
  rfl

/-- The file name that `GetDefaultOutputPath` joins to the directory is a
regular element, unless the base of the path is the root. -/
theorem outputName_regular (p : Str) (hb : filepath.Base p ≠ ['/']) :
    filepath.elements
        (strings.TrimSuffix (filepath.Base p) (filepath.Ext (filepath.Base p)) ++ ".go".toList)
      = [strings.TrimSuffix (filepath.Base p) (filepath.Ext (filepath.Base p))
          ++ ".go".toList] := by
  apply filepath.elements_free
  · simp
  · intro c hc
    rw [List.mem_append] at hc
    rcases hc with hc | hc
    · rcases filepath.Base_free p with h | ⟨_, h⟩
      · exact absurd h hb
      · exact h c (strings.TrimSuffix_mem _ _ c hc)
    · revert c
      decide

theorem go_name_ne (x : Str) :
    x ++ ".go".toList ≠ ['.'] ∧ x ++ ".go".toList ≠ ['.', '.'] := by
  constructor <;> intro h <;> have := congrArg List.length h <;> simp at this

/-- The default output path always ends in `.go`. -/
theorem GetDefaultOutputPath_suffix (p : Str) : ".go".toList <:+ GetDefaultOutputPath p := by
  rw [GetDefaultOutputPath_eq]
  by_cases hb : filepath.Base p = ['/']
  · have hstem : strings.TrimSuffix (filepath.Base p) (filepath.Ext (filepath.Base p))
        = ['/'] := by
      rw [hb]; rfl
    rw [hstem]
    have hy : filepath.elements (['/'] ++ ".go".toList) = [".go".toList] := by
      rw [List.singleton_append, filepath.elements_sep]
      exact filepath.elements_free _ (by decide) (by decide)
    exact (filepath.Dir_Base_join (p.rdropWhile (fun x => !filepath.isPathSeparator x))
      _ _ hy (by decide) (by decide)).2.2
  · have h := (filepath.Dir_Base_join (p.rdropWhile (fun x => !filepath.isPathSeparator x))
      _ _ (outputName_regular p hb) (go_name_ne _).1 (go_name_ne _).2).2.2
    exact (List.suffix_append _ _).trans h

end generator

/-- C15, the claim as stated fails at a path made of separators only: the
base of `/` is `/` itself, and the file name of the result `/.go` is `.go`,
not `/.go`. -/
theorem C15_default_output_counterexample :
    generator.GetDefaultOutputPath "/".toList = "/.go".toList ∧
    filepath.Base (generator.GetDefaultOutputPath "/".toList)
      ≠ strings.TrimSuffix (filepath.Base "/".toList) (filepath.Ext (filepath.Base "/".toList))
        ++ ".go".toList := by
  decide

/-- C15, amended: for every input path `p`, the default output path ends in
`.go`, and differs from `p` whenever the extension of `p` is not `.go`, in
particular when it is `.py`, `.sh`, `.bash` or `.zsh` in any ASCII case; and
for every `p` that is not made of separators only (its base is not `/`), the
default output path lies in the cleaned directory of `p` and its file name is
the base name of `p` with its final extension replaced by `.go`. -/
theorem C15_default_output_path (p : Str) :
    strings.HasSuffix (generator.GetDefaultOutputPath p) ".go".toList = true ∧
    (filepath.Ext p ≠ ".go".toList → generator.GetDefaultOutputPath p ≠ p) ∧
    (∀ e ∈ Spec.mappedExtensions, Spec.equalFoldASCII (filepath.Ext p) e →
      generator.GetDefaultOutputPath p ≠ p) ∧
    (filepath.Base p ≠ ['/'] →
      filepath.Dir (generator.GetDefaultOutputPath p) = filepath.Dir p ∧
      filepath.Base (generator.GetDefaultOutputPath p)
        = strings.TrimSuffix (filepath.Base p) (filepath.Ext (filepath.Base p))
          ++ ".go".toList) := by
  have hsuf := generator.GetDefaultOutputPath_suffix p
  have hdiff : filepath.Ext p ≠ ".go".toList → generator.GetDefaultOutputPath p ≠ p := by
    intro hext heq
    rw [heq] at hsuf
    obtain ⟨x, hx⟩ := hsuf
    apply hext
    rw [← hx]
    exact filepath.Ext_go x
  refine ⟨?_, hdiff, ?_, ?_⟩
  · unfold strings.HasSuffix
    rw [List.isSuffixOf_iff_suffix]
    exact hsuf
  · intro e he hfold
    apply hdiff
    intro hgo
    rw [hgo] at hfold
    revert e
    decide
  · intro hb
    have h := filepath.Dir_Base_join
      (p.rdropWhile (fun x => !filepath.isPathSeparator x)) _ _
      (generator.outputName_regular p hb) (generator.go_name_ne _).1 (generator.go_name_ne _).2
    rw [generator.GetDefaultOutputPath_eq]
    exact ⟨h.1, h.2.1⟩

/-- C15, amended, at the paths of the repository's test. -/
theorem C15_default_output_path_witness :
    generator.GetDefaultOutputPath "/path/to/script.py".toList
      ≠ "/path/to/script.py".toList ∧
    (filepath.Dir (generator.GetDefaultOutputPath "./test.py".toList)
        = filepath.Dir "./test.py".toList ∧
      filepath.Base (generator.GetDefaultOutputPath "./test.py".toList)
        = strings.TrimSuffix (filepath.Base "./test.py".toList)
            (filepath.Ext (filepath.Base "./test.py".toList)) ++ ".go".toList) :=
  ⟨(C15_default_output_path "/path/to/script.py".toList).2.2.1 ".py".toList
      (by decide) (by decide),
   (C15_default_output_path "./test.py".toList).2.2.2 (by decide)⟩

/-- C16, the claim as stated fails: only the suffix `.go` is stripped, so for
a source path with another extension the default binary path is the source
path itself. -/
theorem C16_default_binary_counterexample :
    filepath.Ext "out/main.txt".toList = ".txt".toList ∧
    generator.GetDefaultBinaryPath "out/main.txt".toList = "out/main.txt".toList := by
  decide

/-- C16, amended: for every source path `s` whose base name is `N.go` with a
proper name `N` (not empty, not `.`, not `..`), the default binary path lies
in the cleaned directory of `s`, its file name is `N`, and it differs from
`s`; for a base name that does not end in `.go` nothing is stripped. -/
theorem C16_default_binary_path (s : Str) :
    (∀ N : Str, filepath.Base s = N ++ ".go".toList → N ≠ [] → N ≠ ['.'] → N ≠ ['.', '.'] →
      filepath.Dir (generator.GetDefaultBinaryPath s) = filepath.Dir s ∧
      filepath.Base (generator.GetDefaultBinaryPath s) = N ∧
      generator.GetDefaultBinaryPath s ≠ s) ∧
    (strings.HasSuffix (filepath.Base s) ".go".toList = false →
      generator.GetDefaultBinaryPath s = filepath.Join (filepath.Dir s) (filepath.Base s)) := by
  constructor
  · intro N hb h0 h1 h2
    have hfree : ∀ c ∈ N, filepath.isPathSeparator c = false := by
      intro c hc
      rcases filepath.Base_free s with h | ⟨_, h⟩
      · rw [hb] at h
        have := congrArg List.length h
        simp at this
      · exact h c (by rw [hb]; simp [hc])
    have hy : filepath.elements N = [N] := filepath.elements_free N h0 hfree
    have h := filepath.Dir_Base_join
      (s.rdropWhile (fun x => !filepath.isPathSeparator x)) N N hy h1 h2
    have heq : generator.GetDefaultBinaryPath s =
        filepath.Clean (filepath.Clean
          (s.rdropWhile (fun x => !filepath.isPathSeparator x)) ++ '/' :: N) := by
      rw [generator.GetDefaultBinaryPath_eq, hb, strings.TrimSuffix_append]
    rw [heq]
    refine ⟨h.1, h.2.1, ?_⟩
    intro hs
    have hbase := h.2.1
    rw [hs, hb] at hbase
    have := congrArg List.length hbase
    simp at this
  · intro hsuf
    unfold generator.GetDefaultBinaryPath
    simp only
    unfold strings.TrimSuffix
    unfold strings.HasSuffix at hsuf
    rw [hsuf]
    rfl

/-- C16, amended, at the paths of the repository's test. -/
theorem C16_default_binary_path_witness :
    (filepath.Dir (generator.GetDefaultBinaryPath "/path/to/script.go".toList)
        = filepath.Dir "/path/to/script.go".toList ∧
      filepath.Base (generator.GetDefaultBinaryPath "/path/to/script.go".toList)
        = "script".toList ∧
      generator.GetDefaultBinaryPath "/path/to/script.go".toList
        ≠ "/path/to/script.go".toList) ∧
    generator.GetDefaultBinaryPath "out/main.txt".toList
      = filepath.Join (filepath.Dir "out/main.txt".toList)
          (filepath.Base "out/main.txt".toList) :=
  ⟨(C16_default_binary_path "/path/to/script.go".toList).1 "script".toList
      (by decide) (by decide) (by decide) (by decide),
   (C16_default_binary_path "out/main.txt".toList).2 (by decide)⟩

end GopherScript
